import Mathlib

/-!
# Checksums, digests and base64 of `hex::crypt` (source/helpers/crypto.cpp)

A shallow embedding of the ten functions of `crypto.cpp`.  Machine integers
are natural numbers, truncated with `% 2 ^ w` at every assignment that can
leave the width; bytes are natural numbers below 256.  The `for` loops over the
512-byte buffer are written with a step budget, because their counters are
64-bit and can wrap.
-/

namespace hex.crypt

/-! ## Data source -/

/-- Modelled from the spec: the data source `prv::Provider`, declared in
`hex/providers/provider.hpp` and only called by `crypto.cpp`.  Sections 3 and 6
of the specification: `read(offset, buffer, length)` fills the buffer with the
bytes the source holds at `[offset, offset + length)`, or fails with a
source-defined error when the range is invalid.  `byteAt` is the byte held at
an absolute 64-bit offset, `fault` the error (if any) that a read of `length`
bytes at `offset` raises. -/
structure Provider (ε : Type) where
  byteAt : Nat → Nat
  fault : Nat → Nat → Option ε

/-- The bytes a source holds at `[offset, offset + length)`, offsets being
64-bit numbers. -/
def Provider.bytes {ε : Type} (data : Provider ε) (offset length : Nat) : List Nat :=
  (List.range length).map (fun k => data.byteAt ((offset + k) % 2 ^ 64) % 256)

/-- Modelled from the spec: `Provider::read`, failing with the source's error or
delivering the `length` bytes stored from `offset` on. -/
def Provider.read {ε : Type} (data : Provider ε) (offset length : Nat) :
    Except ε (List Nat) :=
  match data.fault offset length with
  | some e => Except.error e
  | none => Except.ok (data.bytes offset length)

/-- How a call ends: with a returned value, with the error of a failed read, or
still inside its loop when the step budget is used up. -/
inductive Outcome (ε α : Type) where
  | value (a : α)
  | sourceError (e : ε)
  | running
deriving DecidableEq

/-- A call as seen from outside: the `read` calls issued against the source, in
order, as pairs `(offset, length)`, and the way the call ended. -/
structure Run (ε α : Type) where
  reads : List (Nat × Nat)
  outcome : Outcome ε α
deriving DecidableEq

/-- Capacity of the scratch buffer, `std::array<u8, 512>`. -/
def bufferSize : Nat := 512

/-! ## CRC engine -/

/-- Inner loop of the table lambda of `crc16` (lines 24-31): `j` steps on the
pair `(crc, c)`. -/
def crc16TableBits (polynomial : Nat) : Nat → Nat × Nat → Nat × Nat
  | 0, s => s
  | j + 1, (crc, c) =>
    crc16TableBits polynomial j
      (if ((crc ^^^ c) &&& 0x0001) ≠ 0 then ((crc >>> 1) ^^^ polynomial) % 2 ^ 16
        else (crc >>> 1) % 2 ^ 16,
       c >>> 1)

/-- Entry `i` of the table of `crc16` (lines 21-33). -/
def crc16TableEntry (polynomial i : Nat) : Nat :=
  (crc16TableBits polynomial 8 (0, i)).1

/-- The 256-entry table of `crc16` (lines 17-37). -/
def crc16Table (polynomial : Nat) : List Nat :=
  (List.range 256).map (crc16TableEntry polynomial)

/-- Inner loop of the table lambda of `crc32` (lines 61-66). -/
def crc32TableBits (polynomial : Nat) : Nat → Nat → Nat
  | 0, c => c
  | j + 1, c =>
    crc32TableBits polynomial j
      (if c &&& 1 ≠ 0 then (polynomial ^^^ (c >>> 1)) % 2 ^ 32 else (c >>> 1) % 2 ^ 32)

/-- Entry `i` of the table of `crc32` (lines 60-67). -/
def crc32TableEntry (polynomial i : Nat) : Nat :=
  crc32TableBits polynomial 8 i

/-- The 256-entry table of `crc32` (lines 56-71). -/
def crc32Table (polynomial : Nat) : List Nat :=
  (List.range 256).map (crc32TableEntry polynomial)

/-- Body of the byte loop of `crc16` (line 48). -/
def crc16Step (table : List Nat) (crc b : Nat) : Nat :=
  ((crc >>> 8) ^^^ table.getD ((crc ^^^ b) &&& 0x00FF) 0) % 2 ^ 16

/-- Body of the byte loop of `crc32` (line 81). -/
def crc32Step (table : List Nat) (c b : Nat) : Nat :=
  (table.getD ((c ^^^ b) &&& 0xFF) 0 ^^^ (c >>> 8)) % 2 ^ 32

/-- The chunk loop shared, statement for statement, by `crc16` (lines 43-50)
and `crc32` (lines 76-83): `bufferOffset` is set to 0 and never changes, the
loop tests and advances `offset`.  `step` is the body of the byte loop.  The
functions hold no handler around `data->read`, so a read that fails ends the
call with the error of the source. -/
def crcLoop {ε : Type} (data : Provider ε) (step : Nat → Nat → Nat) (size : Nat) :
    Nat → Nat → Nat → List (Nat × Nat) → Run ε Nat
  | 0, _, _, log => ⟨log, Outcome.running⟩
  | fuel + 1, offset, crc, log =>
    let bufferOffset := 0
    if offset < size then
      let readSize := min bufferSize ((size - bufferOffset) % 2 ^ 64)
      let at_ := (offset + bufferOffset) % 2 ^ 64
      match data.read at_ readSize with
      | Except.error e => ⟨log ++ [(at_, readSize)], Outcome.sourceError e⟩
      | Except.ok buffer =>
        crcLoop data step size fuel ((offset + bufferSize) % 2 ^ 64)
          (buffer.foldl step crc) (log ++ [(at_, readSize)])
    else ⟨log, Outcome.value crc⟩

/-- The function `crc16` (lines 16-53), run for at most `fuel` chunks. -/
def crc16 {ε : Type} (data : Provider ε) (offset size polynomial init fuel : Nat) :
    Run ε Nat :=
  let table := crc16Table polynomial
  crcLoop data (crc16Step table) size fuel offset (init % 2 ^ 16) []

/-- C++ `~c` on a `uint32_t`. -/
def not32 (c : Nat) : Nat := 2 ^ 32 - 1 - c % 2 ^ 32

/-- The `return ~c` of `crc32` (line 85) applied to the end of the loop. -/
def complementRun {ε : Type} (r : Run ε Nat) : Run ε Nat :=
  match r.outcome with
  | Outcome.value c => ⟨r.reads, Outcome.value (not32 c)⟩
  | _ => r

/-- The function `crc32` (lines 55-86), run for at most `fuel` chunks. -/
def crc32 {ε : Type} (data : Provider ε) (offset size polynomial init fuel : Nat) :
    Run ε Nat :=
  let table := crc32Table polynomial
  complementRun (crcLoop data (crc32Step table) size fuel offset (init % 2 ^ 32) [])

/-- A source that holds exactly the given bytes and fails, with error `()`, on
every read that leaves them. -/
def memorySource (content : List Nat) : Provider Unit where
  byteAt := fun a => content.getD a 0
  fault := fun offset length => if offset + length ≤ content.length then none else some ()

/-- The nine ASCII bytes of "123456789". -/
def digits19 : List Nat := [0x31, 0x32, 0x33, 0x34, 0x35, 0x36, 0x37, 0x38, 0x39]

/-- A source holding 1024 bytes, all zero except the byte at offset 600. -/
def spikeSource : Provider Unit where
  byteAt := fun a => if a = 600 then 1 else 0
  fault := fun offset length => if offset + length ≤ 1024 then none else some ()

/-- Reference computation for `crc16`, following the specification: the
reflected table-driven fold, from `init`, of the bytes of `[offset, offset + size)`
taken in one pass. -/
def crc16Reference {ε : Type} (data : Provider ε) (offset size polynomial init : Nat) : Nat :=
  (data.bytes offset size).foldl (crc16Step (crc16Table polynomial)) init

/-- Reference computation for `crc32`, following the specification: the
complement of the one-pass fold of the bytes of `[offset, offset + size)`. -/
def crc32Reference {ε : Type} (data : Provider ε) (offset size polynomial init : Nat) : Nat :=
  not32 ((data.bytes offset size).foldl (crc32Step (crc32Table polynomial)) init)

/-! ## Digest engine -/

/-- The state of a caller-supplied buffer of fixed length after a library
routine has stored `stored` from its first byte on: the buffer keeps its
length, every stored value is a byte, and the bytes behind the stored ones keep
their old content. -/
def writeInto (stored buffer : List Nat) : List Nat :=
  ((stored.map (fun b => b % 256)) ++ buffer.drop stored.length).take buffer.length

/-- The accumulator behind `mbedtls_md5_*` and `mbedtls_sha1_*`, library code
that the functions only call: `starts` is the context after `*_init` and
`*_starts_ret`, `update` feeds bytes, `finish` gives the bytes `*_finish_ret`
stores into the result array. -/
structure HashEngine (κ : Type) where
  starts : κ
  update : κ → List Nat → κ
  finish : κ → List Nat

/-- The accumulator behind `mbedtls_sha256_*` and `mbedtls_sha512_*`, whose
`*_starts_ret` takes the flag selecting the truncated variant. -/
structure FlaggedHashEngine (κ : Type) where
  starts : Bool → κ
  update : κ → List Nat → κ
  finish : κ → List Nat

/-- The chunk loop of the six digest functions (lines 97-101, 119-123, 141-145,
163-167, 185-189, 207-211, identical up to the name of the update routine):
the loop tests and advances `bufferOffset`.  As in the CRC loops, a read that
fails ends the call with the error of the source. -/
def digestLoop {ε κ : Type} (data : Provider ε) (update : κ → List Nat → κ)
    (offset size : Nat) : Nat → Nat → κ → List (Nat × Nat) → Run ε κ
  | 0, _, _, log => ⟨log, Outcome.running⟩
  | fuel + 1, bufferOffset, ctx, log =>
    if bufferOffset < size then
      let readSize := min bufferSize ((size - bufferOffset) % 2 ^ 64)
      let at_ := (offset + bufferOffset) % 2 ^ 64
      match data.read at_ readSize with
      | Except.error e => ⟨log ++ [(at_, readSize)], Outcome.sourceError e⟩
      | Except.ok buffer =>
        digestLoop data update offset size fuel ((bufferOffset + bufferSize) % 2 ^ 64)
          (update ctx buffer) (log ++ [(at_, readSize)])
    else ⟨log, Outcome.value ctx⟩

/-- The result array of `length` zero bytes after `*_finish_ret(&ctx, result.data())`. -/
def finishInto {κ : Type} (finish : κ → List Nat) (length : Nat) (ctx : κ) : List Nat :=
  writeInto (finish ctx) (List.replicate length 0)

/-- The end of a digest function: finish into the result array and return it. -/
def finishRun {ε κ : Type} (finish : κ → List Nat) (length : Nat) (r : Run ε κ) :
    Run ε (List Nat) :=
  match r.outcome with
  | Outcome.value ctx => ⟨r.reads, Outcome.value (finishInto finish length ctx)⟩
  | Outcome.sourceError e => ⟨r.reads, Outcome.sourceError e⟩
  | Outcome.running => ⟨r.reads, Outcome.running⟩

/-- The function `md5` (lines 88-108). -/
def md5 {ε κ : Type} (E : HashEngine κ) (data : Provider ε) (offset size fuel : Nat) :
    Run ε (List Nat) :=
  finishRun E.finish 16 (digestLoop data E.update offset size fuel 0 E.starts [])

/-- The function `sha1` (lines 110-130). -/
def sha1 {ε κ : Type} (E : HashEngine κ) (data : Provider ε) (offset size fuel : Nat) :
    Run ε (List Nat) :=
  finishRun E.finish 20 (digestLoop data E.update offset size fuel 0 E.starts [])

/-- The function `sha224` (lines 132-152). -/
def sha224 {ε κ : Type} (E : FlaggedHashEngine κ) (data : Provider ε)
    (offset size fuel : Nat) : Run ε (List Nat) :=
  finishRun E.finish 28 (digestLoop data E.update offset size fuel 0 (E.starts true) [])

/-- The function `sha256` (lines 154-174). -/
def sha256 {ε κ : Type} (E : FlaggedHashEngine κ) (data : Provider ε)
    (offset size fuel : Nat) : Run ε (List Nat) :=
  finishRun E.finish 32 (digestLoop data E.update offset size fuel 0 (E.starts false) [])

/-- The function `sha384` (lines 176-196). -/
def sha384 {ε κ : Type} (E : FlaggedHashEngine κ) (data : Provider ε)
    (offset size fuel : Nat) : Run ε (List Nat) :=
  finishRun E.finish 48 (digestLoop data E.update offset size fuel 0 (E.starts true) [])

/-- The function `sha512` (lines 198-218). -/
def sha512 {ε κ : Type} (E : FlaggedHashEngine κ) (data : Provider ε)
    (offset size fuel : Nat) : Run ε (List Nat) :=
  finishRun E.finish 64 (digestLoop data E.update offset size fuel 0 (E.starts false) [])

/-- Number of chunks of a range of `size` bytes, `ceil(size / 512)`. -/
def chunkCount (size : Nat) : Nat := (size + 511) / 512

/-- The `k`-th read the chunked reader owes for the range `[offset, offset + size)`:
at `offset + 512 * k` (a 64-bit sum), of `min(512, size - 512 * k)` bytes. -/
def chunkAt (offset size k : Nat) : Nat × Nat :=
  ((offset + 512 * k) % 2 ^ 64, min 512 (size - 512 * k))

/-- The reads owed for a whole range. -/
def chunkReads (offset size : Nat) : List (Nat × Nat) :=
  (List.range (chunkCount size)).map (chunkAt offset size)

/-- A source that never fails; the byte at offset `a` is `a % 251`. -/
def patternSource : Provider Unit where
  byteAt := fun a => a % 251
  fault := fun _ _ => none

/-- A toy engine that keeps every byte it is fed and hands them back. -/
def listEngine : HashEngine (List Nat) where
  starts := []
  update := fun c a => c ++ a
  finish := fun c => c

/-- A toy engine with the flag recorded in front of the bytes. -/
def flagEngine : FlaggedHashEngine (List Nat) where
  starts := fun t => [if t then 1 else 0]
  update := fun c a => c ++ a
  finish := fun c => c

/-- An engine whose update forgets everything: it satisfies
`update (update c a) b = update c (a ++ b)` but not `update c [] = c`. -/
def stuckEngine : HashEngine Nat where
  starts := 0
  update := fun _ _ => 1
  finish := fun c => [c]

/-! ## Base64 codec -/

/-- What a call of a base64 primitive `f(dst, dlen, &olen, src, slen)` does: its
return code (0 on success), the bytes it stores into `dst` from the first byte
on, and the count it reports through `olen`. -/
structure PrimitiveResult where
  ret : Int
  stored : List Nat
  olen : Nat

/-- The two library routines `mbedtls_base64_encode` and `mbedtls_base64_decode`
that the codec calls, each a function of the capacity `dlen` and the input. -/
structure Base64Primitive where
  encode : Nat → List Nat → PrimitiveResult
  decode : Nat → List Nat → PrimitiveResult

/-- The function `decode64` (lines 220-229).  `written` is received from the
primitive and not used. -/
def decode64 (prim : Base64Primitive) (input : List Nat) : List Nat :=
  let outputSize := ((3 * input.length) % 2 ^ 64) / 4
  let output := List.replicate ((outputSize + 1) % 2 ^ 64) 0x00
  let r := prim.decode output.length input
  if r.ret ≠ 0 then [] else writeInto r.stored output

/-- The function `encode64` (lines 231-240).  `written` is received from the
primitive and not used. -/
def encode64 (prim : Base64Primitive) (input : List Nat) : List Nat :=
  let outputSize := (4 * (((input.length + 2) % 2 ^ 64) / 3)) % 2 ^ 64
  let output := List.replicate ((outputSize + 1) % 2 ^ 64) 0x00
  let r := prim.encode output.length input
  if r.ret ≠ 0 then [] else writeInto r.stored output

/-- The character of a 6-bit value in the base64 alphabet `A-Z a-z 0-9 + /`. -/
def base64Char (v : Nat) : Nat :=
  if v < 26 then 65 + v
  else if v < 52 then 97 + (v - 26)
  else if v < 62 then 48 + (v - 52)
  else if v = 62 then 43 else 47

/-- The 6-bit value of a character of the base64 alphabet. -/
def base64Value (c : Nat) : Option Nat :=
  if 65 ≤ c ∧ c ≤ 90 then some (c - 65)
  else if 97 ≤ c ∧ c ≤ 122 then some (c - 97 + 26)
  else if 48 ≤ c ∧ c ≤ 57 then some (c - 48 + 52)
  else if c = 43 then some 62
  else if c = 47 then some 63
  else none

/-- Base64 text of a byte sequence, three bytes to four characters, the last
group padded with `=` (61). -/
def base64Text : List Nat → List Nat
  | [] => []
  | [a] => [base64Char (a / 4), base64Char (a % 4 * 16), 61, 61]
  | [a, b] => [base64Char (a / 4), base64Char (a % 4 * 16 + b / 16), base64Char (b % 16 * 4), 61]
  | a :: b :: c :: rest =>
    [base64Char (a / 4), base64Char (a % 4 * 16 + b / 16), base64Char (b % 16 * 4 + c / 64),
      base64Char (c % 64)] ++ base64Text rest

/-- Bytes of a base64 text, or `none` when the text is malformed. -/
def base64Bytes : List Nat → Option (List Nat)
  | [] => some []
  | a :: b :: c :: d :: rest =>
    match base64Value a, base64Value b with
    | some x, some y =>
      if rest = [] ∧ c = 61 ∧ d = 61 then some [(x * 4 + y / 16) % 256]
      else
        match base64Value c with
        | some z =>
          if rest = [] ∧ d = 61 then some [(x * 4 + y / 16) % 256, (y % 16 * 16 + z / 4) % 256]
          else
            match base64Value d, base64Bytes rest with
            | some w, some t =>
              some ([(x * 4 + y / 16) % 256, (y % 16 * 16 + z / 4) % 256, (z % 4 * 64 + w) % 256]
                ++ t)
            | _, _ => none
        | none => none
    | _, _ => none
  | _ => none

/-- Modelled from the spec: the base64 primitive of `mbedtls/base64.h`, library
code that `crypto.cpp` only calls.  Sections 4.4 and 7: the encoder produces
the base64 text and writes a trailing terminator, so it needs one byte more than
the text; either routine fails on an undersized buffer, the decoder also on
malformed input; on success the count of meaningful bytes is reported. -/
def standardBase64 : Base64Primitive where
  encode := fun dlen src =>
    if dlen < (base64Text src).length + 1 then ⟨-42, [], (base64Text src).length + 1⟩
    else ⟨0, base64Text src ++ [0], (base64Text src).length⟩
  decode := fun dlen src =>
    match base64Bytes src with
    | none => ⟨-44, [], 0⟩
    | some bytes =>
      if dlen < bytes.length then ⟨-42, [], bytes.length⟩ else ⟨0, bytes, bytes.length⟩

/-- The eleven ASCII bytes of "hello world". -/
def helloWorld : List Nat := [104, 101, 108, 108, 111, 32, 119, 111, 114, 108, 100]

/-- The sixteen ASCII bytes of "aGVsbG8gd29ybGQ=". -/
def helloWorldText : List Nat :=
  [97, 71, 86, 115, 98, 71, 56, 103, 100, 50, 57, 121, 98, 71, 81, 61]

/-- A primitive that reports failure (code -1) on every call. -/
def failingBase64 : Base64Primitive where
  encode := fun _ _ => ⟨-1, [], 0⟩
  decode := fun _ _ => ⟨-1, [], 0⟩

/-! ## Reads of the CRC loops -/

/-- Number of passes of the CRC loops, `ceil((size - offset) / 512)`, zero when
`offset` is not below `size`. -/
def crcReadCount (offset size : Nat) : Nat := (size - offset + 511) / 512

/-- The `k`-th read of the CRC loops: at `offset + 512 * k`, of `min(512, size)`
bytes. -/
def crcReadAt (offset size k : Nat) : Nat × Nat :=
  (offset + 512 * k, min 512 size)

/-- All reads of the CRC loops. -/
def crcReads (offset size : Nat) : List (Nat × Nat) :=
  (List.range (crcReadCount offset size)).map (crcReadAt offset size)

/-- The bytes delivered by a list of reads, one after the other. -/
def readBytes {ε : Type} (data : Provider ε) (reads : List (Nat × Nat)) : List Nat :=
  (reads.map (fun r => data.bytes r.1 r.2)).flatten

/-! ## Read failures -/

/-- A run stops at its first failed read: if it ends in a source error, that
error is the one raised by the last read of its log and no earlier read of the
log failed; if it does not, no read of its log failed. -/
def StopsAtFailure {ε α : Type} (data : Provider ε) (r : Run ε α) : Prop :=
  (∀ e, r.outcome = Outcome.sourceError e →
    ∃ pre q, r.reads = pre ++ [q] ∧ data.fault q.1 q.2 = some e ∧
      ∀ q' ∈ pre, data.fault q'.1 q'.2 = none) ∧
  ((∀ e, r.outcome ≠ Outcome.sourceError e) → ∀ q ∈ r.reads, data.fault q.1 q.2 = none)

/-! ## Truncated digest variants -/

/-- A toy engine whose start context does not depend on the flag. -/
def plainEngine : FlaggedHashEngine (List Nat) where
  starts := fun _ => []
  update := fun c a => c ++ a
  finish := fun c => c

/-! ## Buffer sizes of the base64 codec -/

/-- Capacity of the buffer of `encode64` for an input of `n` bytes (lines
232-233): `outputSize + 1` with `outputSize = 4 * ((n + 2) / 3)`, in 64-bit
arithmetic. -/
def encode64Capacity (n : Nat) : Nat :=
  ((4 * (((n + 2) % 2 ^ 64) / 3)) % 2 ^ 64 + 1) % 2 ^ 64

/-- Capacity of the buffer of `decode64` for an input of `n` bytes (lines
221-222): `outputSize + 1` with `outputSize = (3 * n) / 4`, in 64-bit
arithmetic. -/
def decode64Capacity (n : Nat) : Nat :=
  (((3 * n) % 2 ^ 64) / 4 + 1) % 2 ^ 64

/-- A primitive that reports success and stores nothing. -/
def idleBase64 : Base64Primitive where
  encode := fun _ _ => ⟨0, [], 0⟩
  decode := fun _ _ => ⟨0, [], 0⟩

/-! ## Bit-at-a-time CRC -/

/-- The bit step of a reflected CRC in the words of the specification: if the
low bit is set, shift right by one and XOR the polynomial, otherwise shift right
by one. -/
def reflectedBit (polynomial x : Nat) : Nat :=
  if x % 2 = 1 then (x >>> 1) ^^^ polynomial else x >>> 1

/-- The bit step applied `k` times. -/
def reflectedBits (polynomial : Nat) : Nat → Nat → Nat
  | 0, x => x
  | k + 1, x => reflectedBits polynomial k (reflectedBit polynomial x)

/-- The bit-at-a-time CRC of a byte sequence: every byte is XOR-ed into the low
eight bits of the running value, which then takes eight bit steps. -/
def bitwiseCrc (polynomial init : Nat) (bytes : List Nat) : Nat :=
  bytes.foldl (fun c b => reflectedBits polynomial 8 (c ^^^ b)) init

/-! ## CRC engine: lemmas -/

theorem not32_eq_xor (c : Nat) (h : c < 2 ^ 32) : not32 c = c ^^^ 0xFFFFFFFF := by
  unfold not32
  rw [Nat.mod_eq_of_lt h]
  apply Nat.eq_of_testBit_eq
  intro i
  have h1 : 2 ^ 32 - 1 - c = 2 ^ 32 - (c + 1) := by omega
  have h2 : (0xFFFFFFFF : Nat) = 2 ^ 32 - 1 := by norm_num
  rw [h1, Nat.testBit_two_pow_sub_succ h, h2, Nat.testBit_xor, Nat.testBit_two_pow_sub_one]
  by_cases hi : i < 32
  · simp [hi]
  · have hc : c.testBit i = false := by
      apply Nat.testBit_lt_two_pow
      exact lt_of_lt_of_le h (Nat.pow_le_pow_right (by norm_num) (by omega))
    simp [hi, hc]

theorem crcLoop_zero_size {ε : Type} (data : Provider ε) (step : Nat → Nat → Nat)
    (fuel offset crc : Nat) (log : List (Nat × Nat)) :
    crcLoop data step 0 (fuel + 1) offset crc log = ⟨log, Outcome.value crc⟩ := by
  simp [crcLoop]

/-- The CRC loop does nothing when `offset` is not below `size`. -/
theorem crcLoop_no_read {ε : Type} (data : Provider ε) (step : Nat → Nat → Nat)
    (size fuel offset crc : Nat) (log : List (Nat × Nat)) (h : size ≤ offset) :
    crcLoop data step size (fuel + 1) offset crc log = ⟨log, Outcome.value crc⟩ := by
  have hge : ¬ (offset < size) := by omega
  simp [crcLoop, hge]

/-- The CRC loop on a range of at most 512 bytes that starts below `size`: one
read of the whole range. -/
theorem crcLoop_single_chunk {ε : Type} (data : Provider ε) (step : Nat → Nat → Nat)
    (size fuel offset crc : Nat) (log : List (Nat × Nat))
    (hlt : offset < size) (hle : size ≤ 512) (hok : data.fault offset size = none) :
    crcLoop data step size (fuel + 2) offset crc log
      = ⟨log ++ [(offset, size)], Outcome.value ((data.bytes offset size).foldl step crc)⟩ := by
  have h1 : (offset + 0) % 2 ^ 64 = offset := Nat.mod_eq_of_lt (by omega)
  have h2 : min bufferSize ((size - 0) % 2 ^ 64) = size := by
    rw [Nat.sub_zero, Nat.mod_eq_of_lt (by omega)]
    unfold bufferSize
    omega
  have h3 : size ≤ (offset + bufferSize) % 2 ^ 64 := by
    unfold bufferSize
    rw [Nat.mod_eq_of_lt (by omega)]
    omega
  rw [crcLoop]
  simp only [hlt, if_true, h1, h2, Provider.read, hok]
  exact crcLoop_no_read data step size fuel _ _ _ h3

theorem crcLoop_value_lt {ε : Type} (data : Provider ε) (step : Nat → Nat → Nat) (size B : Nat)
    (hstep : ∀ c b, step c b < B) :
    ∀ (fuel offset crc : Nat) (log log' : List (Nat × Nat)) (c : Nat), crc < B →
      crcLoop data step size fuel offset crc log = ⟨log', Outcome.value c⟩ → c < B := by
  intro fuel
  induction fuel with
  | zero => intro offset crc log log' c _ h; simp [crcLoop] at h
  | succ n ih =>
    intro offset crc log log' c hcrc h
    unfold crcLoop at h
    simp only at h
    split at h
    · split at h
      · simp at h
      · rename_i buffer _
        refine ih _ _ _ _ _ ?_ h
        induction buffer using List.reverseRecOn with
        | nil => simpa using hcrc
        | append_singleton l a _ => rw [List.foldl_append]; exact hstep _ _
    · simp only [Run.mk.injEq, Outcome.value.injEq] at h
      omega

theorem crcLoop_fuel_mono {ε : Type} (data : Provider ε) (step : Nat → Nat → Nat) (size : Nat) :
    ∀ (fuel offset crc : Nat) (log : List (Nat × Nat)) (extra : Nat),
      (crcLoop data step size fuel offset crc log).outcome ≠ Outcome.running →
      crcLoop data step size (fuel + extra) offset crc log
        = crcLoop data step size fuel offset crc log := by
  intro fuel
  induction fuel with
  | zero => intro offset crc log extra h; simp [crcLoop] at h
  | succ n ih =>
    intro offset crc log extra h
    rw [show n + 1 + extra = (n + extra) + 1 by omega]
    unfold crcLoop at h ⊢
    simp only at h ⊢
    split
    · split
      · rfl
      · rename_i buffer hread
        rw [if_pos (by assumption), hread] at h
        exact ih _ _ _ _ h
    · rfl

/-! ## CRC engine: the claims -/

/-- C1, evaluated on the code.  Range `[0, 513)`, one byte more than the buffer.
Both CRC functions issue a second read of 512 bytes at offset 512, past the end
of the range.  On a source of 1024 bytes (all zero but the byte at 600) they
fold the 1024 bytes and return 52127 and 376203456, where the one-pass
references over the 513 bytes of the range give 0 and 2356067574; on a source
that holds exactly the 513 bytes of the range they end in the source's error. -/
theorem crc_chunking_overruns_range :
    crc16 spikeSource 0 513 0xA001 0 3
      = ⟨[(0, 512), (512, 512)], Outcome.value 52127⟩ ∧
    crc16Reference spikeSource 0 513 0xA001 0 = 0 ∧
    crc32 spikeSource 0 513 0xEDB88320 0xFFFFFFFF 3
      = ⟨[(0, 512), (512, 512)], Outcome.value 376203456⟩ ∧
    crc32Reference spikeSource 0 513 0xEDB88320 0xFFFFFFFF = 2356067574 ∧
    crc16 (memorySource (List.replicate 513 0)) 0 513 0xA001 0 3
      = ⟨[(0, 512), (512, 512)], Outcome.sourceError ()⟩ ∧
    crc32 (memorySource (List.replicate 513 0)) 0 513 0xEDB88320 0xFFFFFFFF 3
      = ⟨[(0, 512), (512, 512)], Outcome.sourceError ()⟩ := by
  refine ⟨by decide!, by decide!, by decide!, by decide!, by decide!, by decide!⟩

/-- C2, evaluated on the code.  Range `[9, 18)` of a source holding "123456789"
twice: `size = 9` lies in `(0, 512]` and `offset = 9` is not below it, so the
loop test `offset < size` fails at once; both functions return without a read,
`crc16` the initial value 0 and `crc32` the complement of 0xFFFFFFFF, where the
folds of the nine bytes of the range are 47933 and 0xCBF43926. -/
theorem crc_single_chunk_skipped :
    crc16 (memorySource (digits19 ++ digits19)) 9 9 0xA001 0 2 = ⟨[], Outcome.value 0⟩ ∧
    crc16Reference (memorySource (digits19 ++ digits19)) 9 9 0xA001 0 = 47933 ∧
    crc32 (memorySource (digits19 ++ digits19)) 9 9 0xEDB88320 0xFFFFFFFF 2
      = ⟨[], Outcome.value 0⟩ ∧
    crc32Reference (memorySource (digits19 ++ digits19)) 9 9 0xEDB88320 0xFFFFFFFF
      = 0xCBF43926 := by
  refine ⟨by decide!, by decide!, by decide!, by decide!⟩

/-- C3.  Check vector of CRC-32: over a source holding the nine bytes
"123456789", with offset 0, size 9, polynomial 0xEDB88320 and initial value
0xFFFFFFFF, `crc32` issues the single read `(0, 9)` and returns 0xCBF43926, for
every step budget of at least 2. -/
theorem crc32_check_vector (fuel : Nat) :
    crc32 (memorySource digits19) 0 9 0xEDB88320 0xFFFFFFFF (fuel + 2)
      = ⟨[(0, 9)], Outcome.value 0xCBF43926⟩ := by
  have h2 : crcLoop (memorySource digits19) (crc32Step (crc32Table 0xEDB88320)) 9 2 0
      (0xFFFFFFFF % 2 ^ 32) [] = ⟨[(0, 9)], Outcome.value 0x340BC6D9⟩ := by decide!
  have hmono := crcLoop_fuel_mono (memorySource digits19) (crc32Step (crc32Table 0xEDB88320)) 9
    2 0 (0xFFFFFFFF % 2 ^ 32) [] fuel (by rw [h2]; simp)
  simp only [crc32]
  rw [show fuel + 2 = 2 + fuel by omega, hmono, h2]
  decide

/-- C10.  Asymmetric finalization.  Whatever value `c` the chunk loop ends with,
`crc16` returns `c` itself and `crc32` returns its complement `c XOR 0xFFFFFFFF`
(which is `2^32 - 1 - c`); in particular on an empty range (`size = 0`), for
every source, offset and polynomial, no read is issued, `crc16` returns its
16-bit `init` and `crc32` returns its 32-bit `init XOR 0xFFFFFFFF`. -/
theorem crc_asymmetric_finalization {ε : Type} (data : Provider ε)
    (offset size polynomial16 polynomial32 init16 init32 fuel : Nat)
    (hfuel : 0 < fuel) (h16 : init16 < 2 ^ 16) (h32 : init32 < 2 ^ 32) :
    (∀ log c,
      crcLoop data (crc16Step (crc16Table polynomial16)) size fuel offset (init16 % 2 ^ 16) []
          = ⟨log, Outcome.value c⟩ →
        crc16 data offset size polynomial16 init16 fuel = ⟨log, Outcome.value c⟩) ∧
    (∀ log c,
      crcLoop data (crc32Step (crc32Table polynomial32)) size fuel offset (init32 % 2 ^ 32) []
          = ⟨log, Outcome.value c⟩ →
        crc32 data offset size polynomial32 init32 fuel
            = ⟨log, Outcome.value (c ^^^ 0xFFFFFFFF)⟩ ∧
          c ^^^ 0xFFFFFFFF = 2 ^ 32 - 1 - c) ∧
    crc16 data offset 0 polynomial16 init16 fuel = ⟨[], Outcome.value init16⟩ ∧
    crc32 data offset 0 polynomial32 init32 fuel
      = ⟨[], Outcome.value (init32 ^^^ 0xFFFFFFFF)⟩ := by
  obtain ⟨f, rfl⟩ : ∃ f, fuel = f + 1 := ⟨fuel - 1, by omega⟩
  refine ⟨fun log c h => h, ?_, ?_, ?_⟩
  · intro log c h
    have hc : c < 2 ^ 32 :=
      crcLoop_value_lt data _ size (2 ^ 32) (fun a b => Nat.mod_lt _ (by norm_num))
        _ _ _ _ _ _ (Nat.mod_lt _ (by norm_num)) h
    have hx := not32_eq_xor c hc
    refine ⟨?_, ?_⟩
    · unfold crc32
      simp only [h, complementRun, hx]
    · rw [← hx, not32, Nat.mod_eq_of_lt hc]
  · simp only [crc16]
    rw [crcLoop_zero_size, Nat.mod_eq_of_lt h16]
  · simp only [crc32]
    rw [crcLoop_zero_size, Nat.mod_eq_of_lt h32]
    simp only [complementRun, not32_eq_xor init32 h32]

/-- C10, witness: the empty range at offset 5 of a nine-byte source. -/
theorem crc_asymmetric_finalization_witness :
    (0 < 1 ∧ 0x1234 < 2 ^ 16 ∧ 0x12345678 < 2 ^ 32) ∧
    crc16 (memorySource digits19) 5 0 0xA001 0x1234 1 = ⟨[], Outcome.value 0x1234⟩ ∧
    crc32 (memorySource digits19) 5 0 0xEDB88320 0x12345678 1
      = ⟨[], Outcome.value (0x12345678 ^^^ 0xFFFFFFFF)⟩ :=
  ⟨⟨by decide, by norm_num, by norm_num⟩,
   (crc_asymmetric_finalization (memorySource digits19) 5 0 0xA001 0xEDB88320 0x1234 0x12345678 1
      (by decide) (by norm_num) (by norm_num)).2.2⟩

/-! ## Digest engine: lemmas -/

theorem Provider.bytes_append {ε : Type} (data : Provider ε) (offset n m : Nat) :
    data.bytes offset (n + m) = data.bytes offset n ++ data.bytes (offset + n) m := by
  simp [Provider.bytes, List.range_add, List.map_append, List.map_map, Function.comp_def,
    Nat.add_assoc]

theorem Provider.bytes_mod {ε : Type} (data : Provider ε) (offset n : Nat) :
    data.bytes (offset % 2 ^ 64) n = data.bytes offset n := by
  simp [Provider.bytes, Nat.mod_add_mod]

theorem digestLoop_chunks {ε κ : Type} (data : Provider ε) (update : κ → List Nat → κ)
    (offset size : Nat) (hsize : size ≤ 2 ^ 64 - 512) :
    ∀ (m k fuel : Nat) (ctx : κ) (log : List (Nat × Nat)),
      size ≤ 512 * (k + m) → (m = 0 ∨ 512 * (k + m - 1) < size) →
      (∀ j, k ≤ j → j < k + m →
        data.fault (chunkAt offset size j).1 (chunkAt offset size j).2 = none) →
      m < fuel →
      digestLoop data update offset size fuel (512 * k) ctx log =
        ⟨log ++ (List.range' k m).map (chunkAt offset size),
         Outcome.value ((List.range' k m).foldl
           (fun c j => update c (data.bytes (chunkAt offset size j).1 (chunkAt offset size j).2))
           ctx)⟩ := by
  intro m
  induction m with
  | zero =>
    intro k fuel ctx log h1 _ _ hf
    obtain ⟨f, rfl⟩ : ∃ f, fuel = f + 1 := ⟨fuel - 1, by omega⟩
    have hge : ¬ (512 * k < size) := by omega
    simp [digestLoop, hge]
  | succ m ih =>
    intro k fuel ctx log h1 h2 hok hf
    obtain ⟨f, rfl⟩ : ∃ f, fuel = f + 1 := ⟨fuel - 1, by omega⟩
    have hlt : 512 * k < size := by omega
    have hfault := hok k (le_refl _) (by omega)
    have hmod : (size - 512 * k) % 2 ^ 64 = size - 512 * k := Nat.mod_eq_of_lt (by omega)
    have hnext : (512 * k + bufferSize) % 2 ^ 64 = 512 * (k + 1) := by
      unfold bufferSize
      rw [Nat.mod_eq_of_lt (by omega)]
      omega
    have hchunk : ((offset + 512 * k) % 2 ^ 64, min bufferSize (size - 512 * k))
        = chunkAt offset size k := rfl
    have hrec := ih (k + 1) f
      (update ctx (data.bytes (chunkAt offset size k).1 (chunkAt offset size k).2))
      (log ++ [chunkAt offset size k]) (by omega) (by omega)
      (fun j hj1 hj2 => hok j (by omega) (by omega)) (by omega)
    unfold digestLoop
    simp only [hlt, if_true, hmod, hnext, Provider.read]
    rw [show ((offset + 512 * k) % 2 ^ 64) = (chunkAt offset size k).1 from rfl,
      show min bufferSize (size - 512 * k) = (chunkAt offset size k).2 from rfl, hfault]
    simp only [hrec, List.range'_succ, List.map_cons, List.foldl_cons, List.append_assoc,
      List.singleton_append]

theorem chunk_fold_eq {ε κ : Type} (data : Provider ε) (update : κ → List Nat → κ)
    (offset size : Nat)
    (hlaw : ∀ c a b, update (update c a) b = update c (a ++ b)) :
    ∀ (m k : Nat) (ctx : κ), size ≤ 512 * (k + m + 1) → 512 * (k + m) < size →
      (List.range' k (m + 1)).foldl
          (fun c j => update c (data.bytes (chunkAt offset size j).1 (chunkAt offset size j).2))
          ctx
        = update ctx (data.bytes (offset + 512 * k) (size - 512 * k)) := by
  intro m
  induction m with
  | zero =>
    intro k ctx h1 h2
    have ha : (chunkAt offset size k).1 = (offset + 512 * k) % 2 ^ 64 := rfl
    have hb : (chunkAt offset size k).2 = size - 512 * k := by
      show min 512 (size - 512 * k) = size - 512 * k
      omega
    simp only [List.range'_succ, List.range'_zero, List.foldl_cons, List.foldl_nil, ha, hb,
      Provider.bytes_mod]
  | succ m ih =>
    intro k ctx h1 h2
    have ha : (chunkAt offset size k).1 = (offset + 512 * k) % 2 ^ 64 := rfl
    have hb : (chunkAt offset size k).2 = 512 := by
      show min 512 (size - 512 * k) = 512
      omega
    have hs : size - 512 * k = 512 + (size - 512 * (k + 1)) := by omega
    have hrec := ih (k + 1) (update ctx (data.bytes (offset + 512 * k) 512)) (by omega) (by omega)
    have hadd : offset + 512 * (k + 1) = offset + 512 * k + 512 := by omega
    rw [List.range'_succ, List.foldl_cons, ha, hb, Provider.bytes_mod, hrec, hlaw, hs,
      Provider.bytes_append, hadd]

theorem digestLoop_whole {ε κ : Type} (data : Provider ε) (update : κ → List Nat → κ)
    (offset size fuel : Nat) (start : κ) (hsize : size ≤ 2 ^ 64 - 512)
    (hok : ∀ k, k < chunkCount size →
      data.fault (chunkAt offset size k).1 (chunkAt offset size k).2 = none)
    (hfuel : chunkCount size < fuel) :
    digestLoop data update offset size fuel 0 start [] =
      ⟨chunkReads offset size,
       Outcome.value ((List.range (chunkCount size)).foldl
         (fun c j => update c (data.bytes (chunkAt offset size j).1 (chunkAt offset size j).2))
         start)⟩ := by
  have h := digestLoop_chunks data update offset size hsize (chunkCount size) 0 fuel start []
    (by unfold chunkCount; omega) (by unfold chunkCount; omega)
    (fun j _ hj => hok j (by omega)) hfuel
  simpa [chunkReads, List.range_eq_range'] using h

theorem digest_context_eq {ε κ : Type} (data : Provider ε) (update : κ → List Nat → κ)
    (offset size : Nat) (start : κ)
    (hlaw : ∀ c a b, update (update c a) b = update c (a ++ b)) :
    (List.range (chunkCount size)).foldl
        (fun c j => update c (data.bytes (chunkAt offset size j).1 (chunkAt offset size j).2))
        start
      = if size = 0 then start else update start (data.bytes offset size) := by
  by_cases h0 : size = 0
  · subst h0
    simp [chunkCount]
  · obtain ⟨m, hm⟩ : ∃ m, chunkCount size = m + 1 :=
      ⟨chunkCount size - 1, by unfold chunkCount; omega⟩
    have h := chunk_fold_eq data update offset size hlaw m 0 start
      (by unfold chunkCount at hm; omega) (by unfold chunkCount at hm; omega)
    rw [if_neg h0, hm, List.range_eq_range', h]
    simp

theorem finishRun_value {ε κ : Type} (finish : κ → List Nat) (length : Nat)
    (log : List (Nat × Nat)) (ctx : κ) :
    finishRun finish length (⟨log, Outcome.value ctx⟩ : Run ε κ)
      = ⟨log, Outcome.value (finishInto finish length ctx)⟩ := rfl

/-- What every digest function returns once its reads succeed: the reads are
the owed chunks, the value is the finished context. -/
theorem digest_run {ε κ : Type} (data : Provider ε) (update : κ → List Nat → κ)
    (finish : κ → List Nat) (length offset size fuel : Nat) (start : κ)
    (hsize : size ≤ 2 ^ 64 - 512)
    (hok : ∀ k, k < chunkCount size →
      data.fault (chunkAt offset size k).1 (chunkAt offset size k).2 = none)
    (hfuel : chunkCount size < fuel) :
    finishRun finish length (digestLoop data update offset size fuel 0 start []) =
      ⟨chunkReads offset size,
       Outcome.value (finishInto finish length ((List.range (chunkCount size)).foldl
         (fun c j => update c (data.bytes (chunkAt offset size j).1 (chunkAt offset size j).2))
         start))⟩ := by
  rw [digestLoop_whole data update offset size fuel start hsize hok hfuel, finishRun_value]

theorem chunk_lengths_prefix (size : Nat) :
    ∀ k, 512 * k ≤ size →
      ((List.range k).map (fun j => min 512 (size - 512 * j))).sum = 512 * k := by
  intro k
  induction k with
  | zero => intro _; simp
  | succ k ih =>
    intro h
    have hk : min 512 (size - 512 * k) = 512 := by omega
    rw [List.range_succ, List.map_append, List.sum_append, ih (by omega)]
    simp only [List.map_cons, List.map_nil, List.sum_cons, List.sum_nil, hk]
    omega

theorem chunkReads_lengths (offset size : Nat) :
    (chunkReads offset size).map Prod.snd
      = (List.range (chunkCount size)).map (fun j => min 512 (size - 512 * j)) := by
  simp [chunkReads, chunkAt, List.map_map, Function.comp_def]

theorem chunkReads_take_sum (offset size k : Nat) (hk : 512 * k ≤ size) :
    (((chunkReads offset size).take k).map Prod.snd).sum = 512 * k := by
  have hle : k ≤ chunkCount size := by unfold chunkCount; omega
  rw [List.map_take, chunkReads_lengths, ← List.map_take, List.take_range,
    Nat.min_eq_left hle]
  exact chunk_lengths_prefix size k hk

theorem chunkReads_sum (offset size : Nat) :
    ((chunkReads offset size).map Prod.snd).sum = size := by
  rw [chunkReads_lengths]
  by_cases h0 : size = 0
  · subst h0; simp [chunkCount]
  · obtain ⟨m, hm⟩ : ∃ m, chunkCount size = m + 1 :=
      ⟨chunkCount size - 1, by unfold chunkCount; omega⟩
    have h1 : 512 * m < size := by unfold chunkCount at hm; omega
    have h2 : size ≤ 512 * (m + 1) := by unfold chunkCount at hm; omega
    rw [hm, List.range_succ, List.map_append, List.sum_append,
      chunk_lengths_prefix size m (by omega)]
    simp only [List.map_cons, List.map_nil, List.sum_cons, List.sum_nil]
    omega

/-! ## Digest engine: the claims -/

/-- C5, counterexample.  The engine `stuckEngine` satisfies
`update (update c a) b = update c (a ++ b)`, yet on the empty range at offset 0
`md5` makes no update and returns the finished start context, 16 zero bytes,
while finishing `update start []` gives a leading 1: the append law alone does
not make the two agree when `size = 0`. -/
theorem digest_empty_range_differs :
    (∀ (c : Nat) (a b : List Nat),
      stuckEngine.update (stuckEngine.update c a) b = stuckEngine.update c (a ++ b)) ∧
    md5 stuckEngine patternSource 0 0 1 = ⟨[], Outcome.value (List.replicate 16 0)⟩ ∧
    finishInto stuckEngine.finish 16
        (stuckEngine.update stuckEngine.starts (patternSource.bytes 0 0))
      = 1 :: List.replicate 15 0 ∧
    (md5 stuckEngine patternSource 0 0 1).outcome ≠
      Outcome.value (finishInto stuckEngine.finish 16
        (stuckEngine.update stuckEngine.starts (patternSource.bytes 0 0))) := by
  refine ⟨fun _ _ _ => rfl, by decide, by decide, by decide⟩

/-- C5, amended.  Chunking invariance for the six digest functions.  For engines
whose update satisfies `update (update c a) b = update c (a ++ b)`, every
source, offset and `size ≤ 2^64 - 512`, when the source serves the reads of the
range and the step budget exceeds the number of chunks: each function returns
the finished context of ONE update with all the bytes of `[offset, offset + size)`
when `size > 0`, and the finished start context (no update at all) when
`size = 0`. -/
theorem digest_chunking_invariance {ε κ₁ κ₂ κ₃ κ₄ : Type}
    (E₁ : HashEngine κ₁) (E₂ : HashEngine κ₂)
    (F₁ : FlaggedHashEngine κ₃) (F₂ : FlaggedHashEngine κ₄)
    (h₁ : ∀ c a b, E₁.update (E₁.update c a) b = E₁.update c (a ++ b))
    (h₂ : ∀ c a b, E₂.update (E₂.update c a) b = E₂.update c (a ++ b))
    (h₃ : ∀ c a b, F₁.update (F₁.update c a) b = F₁.update c (a ++ b))
    (h₄ : ∀ c a b, F₂.update (F₂.update c a) b = F₂.update c (a ++ b))
    (data : Provider ε) (offset size fuel : Nat)
    (hsize : size ≤ 2 ^ 64 - 512)
    (hok : ∀ k, k < chunkCount size →
      data.fault (chunkAt offset size k).1 (chunkAt offset size k).2 = none)
    (hfuel : chunkCount size < fuel) :
    (md5 E₁ data offset size fuel).outcome = Outcome.value (finishInto E₁.finish 16
      (if size = 0 then E₁.starts else E₁.update E₁.starts (data.bytes offset size))) ∧
    (sha1 E₂ data offset size fuel).outcome = Outcome.value (finishInto E₂.finish 20
      (if size = 0 then E₂.starts else E₂.update E₂.starts (data.bytes offset size))) ∧
    (sha224 F₁ data offset size fuel).outcome = Outcome.value (finishInto F₁.finish 28
      (if size = 0 then F₁.starts true
        else F₁.update (F₁.starts true) (data.bytes offset size))) ∧
    (sha256 F₁ data offset size fuel).outcome = Outcome.value (finishInto F₁.finish 32
      (if size = 0 then F₁.starts false
        else F₁.update (F₁.starts false) (data.bytes offset size))) ∧
    (sha384 F₂ data offset size fuel).outcome = Outcome.value (finishInto F₂.finish 48
      (if size = 0 then F₂.starts true
        else F₂.update (F₂.starts true) (data.bytes offset size))) ∧
    (sha512 F₂ data offset size fuel).outcome = Outcome.value (finishInto F₂.finish 64
      (if size = 0 then F₂.starts false
        else F₂.update (F₂.starts false) (data.bytes offset size))) := by
  refine ⟨?_, ?_, ?_, ?_, ?_, ?_⟩
  · rw [md5, digest_run data _ _ _ offset size fuel _ hsize hok hfuel,
      digest_context_eq data _ offset size _ h₁]
  · rw [sha1, digest_run data _ _ _ offset size fuel _ hsize hok hfuel,
      digest_context_eq data _ offset size _ h₂]
  · rw [sha224, digest_run data _ _ _ offset size fuel _ hsize hok hfuel,
      digest_context_eq data _ offset size _ h₃]
  · rw [sha256, digest_run data _ _ _ offset size fuel _ hsize hok hfuel,
      digest_context_eq data _ offset size _ h₃]
  · rw [sha384, digest_run data _ _ _ offset size fuel _ hsize hok hfuel,
      digest_context_eq data _ offset size _ h₄]
  · rw [sha512, digest_run data _ _ _ offset size fuel _ hsize hok hfuel,
      digest_context_eq data _ offset size _ h₄]

/-- C5, witness: a 1300-byte range at offset 100 of a source that never fails,
with engines that keep the bytes they are fed. -/
theorem digest_chunking_invariance_witness :
    (1300 ≤ 2 ^ 64 - 512 ∧ chunkCount 1300 < 4) ∧
    (md5 listEngine patternSource 100 1300 4).outcome = Outcome.value (finishInto
      listEngine.finish 16 (if 1300 = 0 then listEngine.starts
        else listEngine.update listEngine.starts (patternSource.bytes 100 1300))) :=
  ⟨⟨by norm_num, by decide⟩,
   (digest_chunking_invariance listEngine listEngine flagEngine flagEngine
      (fun c a b => List.append_assoc c a b) (fun c a b => List.append_assoc c a b)
      (fun c a b => List.append_assoc c a b) (fun c a b => List.append_assoc c a b)
      patternSource 100 1300 4 (by norm_num) (fun _ _ => rfl) (by decide)).1⟩

/-- C6.  The chunked reader inside the digest functions.  For every offset and
every `size ≤ 2^64 - 512`, when the source serves the reads and the step budget
exceeds the number of chunks, each of the six functions issues exactly the
`ceil(size / 512)` reads `chunkReads offset size`: the `k`-th at the 64-bit sum
`offset + 512 * k` (the plain sum when the range stays inside the address
space) with length `min(512, size - 512 * k)`; every length lies between 1 and
512, the lengths add up to `size`, each read starts where the one before it
ended, every length is `min(512, size - delivered)`, the last one is `size`
minus the bytes delivered before it, and an empty range issues no read. -/
theorem digest_chunked_reader_contract {ε κ₁ κ₂ κ₃ κ₄ : Type}
    (E₁ : HashEngine κ₁) (E₂ : HashEngine κ₂)
    (F₁ : FlaggedHashEngine κ₃) (F₂ : FlaggedHashEngine κ₄)
    (data : Provider ε) (offset size fuel : Nat)
    (hsize : size ≤ 2 ^ 64 - 512)
    (hok : ∀ k, k < chunkCount size →
      data.fault (chunkAt offset size k).1 (chunkAt offset size k).2 = none)
    (hfuel : chunkCount size < fuel) :
    ((md5 E₁ data offset size fuel).reads = chunkReads offset size ∧
      (sha1 E₂ data offset size fuel).reads = chunkReads offset size ∧
      (sha224 F₁ data offset size fuel).reads = chunkReads offset size ∧
      (sha256 F₁ data offset size fuel).reads = chunkReads offset size ∧
      (sha384 F₂ data offset size fuel).reads = chunkReads offset size ∧
      (sha512 F₂ data offset size fuel).reads = chunkReads offset size) ∧
    ((chunkReads offset size).length = chunkCount size ∧
      size ≤ 512 * chunkCount size ∧ 512 * chunkCount size < size + 512) ∧
    (∀ k, k < chunkCount size →
      (chunkReads offset size)[k]?
          = some ((offset + 512 * k) % 2 ^ 64, min 512 (size - 512 * k)) ∧
        1 ≤ min 512 (size - 512 * k) ∧ min 512 (size - 512 * k) ≤ 512) ∧
    ((chunkReads offset size).map Prod.snd).sum = size ∧
    (∀ k, k + 1 < chunkCount size →
      ((chunkAt offset size k).1 + (chunkAt offset size k).2) % 2 ^ 64
        = (chunkAt offset size (k + 1)).1) ∧
    (∀ k, k < chunkCount size →
      (chunkAt offset size k).2
        = min 512 (size - (((chunkReads offset size).take k).map Prod.snd).sum)) ∧
    (0 < size →
      (chunkAt offset size (chunkCount size - 1)).2
        = size - (((chunkReads offset size).take (chunkCount size - 1)).map Prod.snd).sum) ∧
    (size = 0 → chunkReads offset size = []) ∧
    (offset + size ≤ 2 ^ 64 → ∀ k, k < chunkCount size →
      (chunkAt offset size k).1 = offset + 512 * k) := by
  have hmd5 : (md5 E₁ data offset size fuel).reads = chunkReads offset size := by
    rw [md5, digest_run data _ _ _ offset size fuel _ hsize hok hfuel]
  refine ⟨⟨hmd5, ?_, ?_, ?_, ?_, ?_⟩, ⟨?_, ?_, ?_⟩, ?_, chunkReads_sum offset size, ?_, ?_, ?_,
    ?_, ?_⟩
  · rw [sha1, digest_run data _ _ _ offset size fuel _ hsize hok hfuel]
  · rw [sha224, digest_run data _ _ _ offset size fuel _ hsize hok hfuel]
  · rw [sha256, digest_run data _ _ _ offset size fuel _ hsize hok hfuel]
  · rw [sha384, digest_run data _ _ _ offset size fuel _ hsize hok hfuel]
  · rw [sha512, digest_run data _ _ _ offset size fuel _ hsize hok hfuel]
  · simp [chunkReads]
  · unfold chunkCount; omega
  · unfold chunkCount; omega
  · intro k hk
    have hlt : 512 * k < size := by unfold chunkCount at hk; omega
    refine ⟨?_, by omega, by omega⟩
    simp [chunkReads, chunkAt, hk]
  · intro k hk
    have hlt : 512 * (k + 1) < size := by unfold chunkCount at hk; omega
    show ((offset + 512 * k) % 2 ^ 64 + min 512 (size - 512 * k)) % 2 ^ 64
      = (offset + 512 * (k + 1)) % 2 ^ 64
    have hb : min 512 (size - 512 * k) = 512 := by omega
    rw [hb]
    omega
  · intro k hk
    have hlt : 512 * k < size := by unfold chunkCount at hk; omega
    rw [chunkReads_take_sum offset size k (by omega)]
    rfl
  · intro hpos
    have hlt : 512 * (chunkCount size - 1) < size := by unfold chunkCount; omega
    have hle : size ≤ 512 * (chunkCount size - 1) + 512 := by unfold chunkCount; omega
    rw [chunkReads_take_sum offset size _ (by omega)]
    show min 512 (size - 512 * (chunkCount size - 1)) = size - 512 * (chunkCount size - 1)
    omega
  · intro h0
    rw [h0]
    rfl
  · intro hrange k hk
    have hlt : 512 * k < size := by unfold chunkCount at hk; omega
    exact Nat.mod_eq_of_lt (by omega)

/-- C6, witness: the three reads of a 1300-byte range at offset 100. -/
theorem digest_chunked_reader_contract_witness :
    (1300 ≤ 2 ^ 64 - 512 ∧ chunkCount 1300 < 4) ∧
    (md5 listEngine patternSource 100 1300 4).reads = [(100, 512), (612, 512), (1124, 276)] :=
  ⟨⟨by norm_num, by decide⟩,
   (digest_chunked_reader_contract listEngine listEngine flagEngine flagEngine
      patternSource 100 1300 4 (by norm_num) (fun _ _ => rfl) (by decide)).1.1.trans
     (by decide)⟩

/-! ## Base64 codec: the claims -/

theorem writeInto_length (stored buffer : List Nat) :
    (writeInto stored buffer).length = buffer.length := by
  simp only [writeInto, List.length_take, List.length_append, List.length_map,
    List.length_drop]
  omega

theorem encode64_success (prim : Base64Primitive) (input : List Nat)
    (h : (prim.encode ((4 * ((input.length + 2) % 2 ^ 64 / 3) % 2 ^ 64 + 1) % 2 ^ 64) input).ret
      = 0) :
    (encode64 prim input).length = (4 * ((input.length + 2) % 2 ^ 64 / 3) % 2 ^ 64 + 1) % 2 ^ 64 := by
  simp only [encode64, List.length_replicate, h, ne_eq, not_true_eq_false, if_false,
    writeInto_length]

theorem decode64_success (prim : Base64Primitive) (input : List Nat)
    (h : (prim.decode ((3 * input.length % 2 ^ 64 / 4 + 1) % 2 ^ 64) input).ret = 0) :
    (decode64 prim input).length = (3 * input.length % 2 ^ 64 / 4 + 1) % 2 ^ 64 := by
  simp only [decode64, List.length_replicate, h, ne_eq, not_true_eq_false, if_false,
    writeInto_length]

theorem encode64_failure (prim : Base64Primitive) (input : List Nat)
    (h : (prim.encode ((4 * ((input.length + 2) % 2 ^ 64 / 3) % 2 ^ 64 + 1) % 2 ^ 64) input).ret
      ≠ 0) :
    encode64 prim input = [] := by
  simp only [encode64, List.length_replicate, h, ne_eq, not_false_eq_true, if_true]

theorem decode64_failure (prim : Base64Primitive) (input : List Nat)
    (h : (prim.decode ((3 * input.length % 2 ^ 64 / 4 + 1) % 2 ^ 64) input).ret ≠ 0) :
    decode64 prim input = [] := by
  simp only [decode64, List.length_replicate, h, ne_eq, not_false_eq_true, if_true]

/-- The length of what `decode64` returns is 0 or the capacity of its buffer. -/
theorem decode64_length (prim : Base64Primitive) (input : List Nat) :
    (decode64 prim input).length = 0 ∨
      (decode64 prim input).length = (3 * input.length % 2 ^ 64 / 4 + 1) % 2 ^ 64 := by
  by_cases h : (prim.decode ((3 * input.length % 2 ^ 64 / 4 + 1) % 2 ^ 64) input).ret = 0
  · exact Or.inr (decode64_success prim input h)
  · exact Or.inl (by rw [decode64_failure prim input h]; rfl)

/-- With any primitive at all, a successful encoding of a non-empty sequence
never decodes back to it: the returned buffers carry their spare bytes, so the
lengths cannot match. -/
theorem base64_round_trip_lengths (prim : Base64Primitive) (x : List Nat)
    (hx : x ≠ []) (hlen : x.length < 2 ^ 61)
    (hret : (prim.encode ((4 * ((x.length + 2) % 2 ^ 64 / 3) % 2 ^ 64 + 1) % 2 ^ 64) x).ret
      = 0) :
    decode64 prim (encode64 prim x) ≠ x := by
  intro hrt
  have hpos : 0 < x.length := List.length_pos.mpr hx
  have he := encode64_success prim x hret
  have hd := decode64_length prim (encode64 prim x)
  rw [hrt, he] at hd
  omega

/-- C4, evaluated on the code.  `encode64` of "hello world" returns the 16
characters and the terminator, 17 bytes; `decode64` of those 17 bytes returns
the empty sequence, because the terminator is not base64 text; and `decode64`
of the 16 characters alone returns 13 bytes, "hello world" and two spare
zeros.  Neither way does the round trip give back the 11 bytes. -/
theorem base64_round_trip_broken :
    encode64 standardBase64 helloWorld = helloWorldText ++ [0] ∧
    decode64 standardBase64 (encode64 standardBase64 helloWorld) = [] ∧
    decode64 standardBase64 (encode64 standardBase64 helloWorld) ≠ helloWorld ∧
    decode64 standardBase64 helloWorldText = helloWorld ++ [0, 0] := by
  refine ⟨by decide, by decide, by decide, by decide⟩

/-- C7, evaluated on the code.  `encode64` of the 11 bytes "hello world" returns
17 bytes, the text "aGVsbG8gd29ybGQ=" followed by the zero terminator, not the
16-byte text; and with any primitive whatever the result has 17 bytes or none. -/
theorem encode64_hello_world_has_terminator :
    encode64 standardBase64 helloWorld = helloWorldText ++ [0] ∧
    (encode64 standardBase64 helloWorld).length = 17 ∧
    encode64 standardBase64 helloWorld ≠ helloWorldText ∧
    (∀ prim : Base64Primitive,
      (encode64 prim helloWorld).length = 17 ∨ (encode64 prim helloWorld).length = 0) := by
  refine ⟨by decide, by decide, by decide, fun prim => ?_⟩
  by_cases h : (prim.encode
      ((4 * ((helloWorld.length + 2) % 2 ^ 64 / 3) % 2 ^ 64 + 1) % 2 ^ 64) helloWorld).ret = 0
  · exact Or.inl (by rw [encode64_success prim helloWorld h]; decide)
  · exact Or.inr (by rw [encode64_failure prim helloWorld h]; rfl)

/-- C8, evaluated on the code.  On "aGVsbG8gd29ybGQ=" the primitive succeeds,
stores the 11 bytes "hello world" and reports 11 written bytes; `decode64`
returns its whole 13-byte buffer, the 11 decoded bytes and two spare zeros. -/
theorem decode64_returns_whole_buffer :
    (standardBase64.decode 13 helloWorldText).ret = 0 ∧
    (standardBase64.decode 13 helloWorldText).stored = helloWorld ∧
    (standardBase64.decode 13 helloWorldText).olen = 11 ∧
    decode64 standardBase64 helloWorldText = helloWorld ++ [0, 0] ∧
    (decode64 standardBase64 helloWorldText).length = 13 := by
  refine ⟨by decide, by decide, by decide, by decide, by decide⟩

/-- C9.  Failure policy of the codec.  For every primitive and every input,
`encode64` returns the empty sequence exactly when the encode primitive, called
with the capacity of the buffer, returns a non-zero code, and `decode64` exactly
when the decode primitive does; hence an empty output for a non-empty input
means that the primitive failed. -/
theorem base64_failure_policy (prim : Base64Primitive) (input : List Nat) :
    (encode64 prim input = [] ↔
      (prim.encode ((4 * ((input.length + 2) % 2 ^ 64 / 3) % 2 ^ 64 + 1) % 2 ^ 64) input).ret
        ≠ 0) ∧
    (decode64 prim input = [] ↔
      (prim.decode ((3 * input.length % 2 ^ 64 / 4 + 1) % 2 ^ 64) input).ret ≠ 0) ∧
    (input ≠ [] → encode64 prim input = [] →
      (prim.encode ((4 * ((input.length + 2) % 2 ^ 64 / 3) % 2 ^ 64 + 1) % 2 ^ 64) input).ret
        ≠ 0) ∧
    (input ≠ [] → decode64 prim input = [] →
      (prim.decode ((3 * input.length % 2 ^ 64 / 4 + 1) % 2 ^ 64) input).ret ≠ 0) := by
  have henc : encode64 prim input = [] ↔
      (prim.encode ((4 * ((input.length + 2) % 2 ^ 64 / 3) % 2 ^ 64 + 1) % 2 ^ 64) input).ret
        ≠ 0 := by
    constructor
    · intro h hret
      have hl := encode64_success prim input hret
      rw [h] at hl
      simp only [List.length_nil] at hl
      omega
    · exact encode64_failure prim input
  have hdec : decode64 prim input = [] ↔
      (prim.decode ((3 * input.length % 2 ^ 64 / 4 + 1) % 2 ^ 64) input).ret ≠ 0 := by
    constructor
    · intro h hret
      have hl := decode64_success prim input hret
      have ht : 3 * input.length % 2 ^ 64 < 2 ^ 64 := Nat.mod_lt _ (by norm_num)
      rw [h, Nat.mod_eq_of_lt (by omega)] at hl
      simp only [List.length_nil] at hl
      omega
    · exact decode64_failure prim input
  exact ⟨henc, hdec, fun _ h => henc.mp h, fun _ h => hdec.mp h⟩

/-- C9, witness: a primitive that always fails, on the input "hello world". -/
theorem base64_failure_policy_witness :
    (helloWorld ≠ [] ∧ encode64 failingBase64 helloWorld = [] ∧
      decode64 failingBase64 helloWorld = []) ∧
    (failingBase64.encode
      ((4 * ((helloWorld.length + 2) % 2 ^ 64 / 3) % 2 ^ 64 + 1) % 2 ^ 64) helloWorld).ret ≠ 0 ∧
    (failingBase64.decode
      ((3 * helloWorld.length % 2 ^ 64 / 4 + 1) % 2 ^ 64) helloWorld).ret ≠ 0 :=
  ⟨⟨by decide, by decide, by decide⟩,
   (base64_failure_policy failingBase64 helloWorld).2.2.1 (by decide) (by decide),
   (base64_failure_policy failingBase64 helloWorld).2.2.2 (by decide) (by decide)⟩

/-! ## Bit-at-a-time CRC: lemmas -/

theorem reflectedBit_lt (p x n : Nat) (hp : p < 2 ^ n) (hx : x < 2 ^ n) :
    reflectedBit p x < 2 ^ n := by
  have hs : x >>> 1 < 2 ^ n := by
    rw [Nat.shiftRight_eq_div_pow]
    exact lt_of_le_of_lt (Nat.div_le_self _ _) hx
  unfold reflectedBit
  split
  · exact Nat.xor_lt_two_pow hs hp
  · exact hs

theorem reflectedBits_lt (p n : Nat) (hp : p < 2 ^ n) :
    ∀ (k x : Nat), x < 2 ^ n → reflectedBits p k x < 2 ^ n := by
  intro k
  induction k with
  | zero => intro x hx; exact hx
  | succ k ih => intro x hx; exact ih _ (reflectedBit_lt p x n hp hx)

/-- One bit step passes over an even summand: the summand is only shifted. -/
theorem reflectedBit_xor_even (p a h : Nat) (hh : h % 2 = 0) :
    reflectedBit p (a ^^^ h) = reflectedBit p a ^^^ (h >>> 1) := by
  have hmod : (a ^^^ h) % 2 = a % 2 := by rw [Nat.xor_mod_two_eq]; omega
  have hshift : (a ^^^ h) >>> 1 = (a >>> 1) ^^^ (h >>> 1) := by
    simp only [Nat.shiftRight_eq_div_pow, Nat.pow_one, Nat.xor_div_two]
  unfold reflectedBit
  rw [hmod, hshift]
  split
  · rw [Nat.xor_assoc, Nat.xor_comm (h >>> 1) p, ← Nat.xor_assoc]
  · rfl

/-- The part of a value above the low `k` bits rides along `k` bit steps. -/
theorem reflectedBits_xor_high (p : Nat) :
    ∀ (k a h : Nat), h % 2 ^ k = 0 →
      reflectedBits p k (a ^^^ h) = reflectedBits p k a ^^^ (h >>> k) := by
  intro k
  induction k with
  | zero => intro a h _; rfl
  | succ k ih =>
    intro a h hh
    obtain ⟨t, rfl⟩ : 2 ^ (k + 1) ∣ h := Nat.dvd_of_mod_eq_zero hh
    have hform : 2 ^ (k + 1) * t = 2 * (2 ^ k * t) := by
      rw [Nat.pow_succ, Nat.mul_comm (2 ^ k) 2, Nat.mul_assoc]
    have h2 : (2 ^ (k + 1) * t) % 2 = 0 := by
      rw [hform]
      exact Nat.mul_mod_right _ _
    have hk : ((2 ^ (k + 1) * t) >>> 1) % 2 ^ k = 0 := by
      rw [Nat.shiftRight_eq_div_pow, Nat.pow_one, hform,
        Nat.mul_div_cancel_left _ (by norm_num)]
      exact Nat.mul_mod_right _ _
    show reflectedBits p k (reflectedBit p (a ^^^ _)) = _
    rw [reflectedBit_xor_even p a _ h2, ih _ _ hk, ← Nat.shiftRight_add, Nat.add_comm 1 k]
    rfl

/-- A value is its low byte XOR the rest. -/
theorem xor_low_byte_high (x : Nat) : x % 256 ^^^ ((x >>> 8) <<< 8) = x := by
  apply Nat.eq_of_testBit_eq
  intro i
  have h256 : (256 : Nat) = 2 ^ 8 := by norm_num
  rw [Nat.testBit_xor, h256, Nat.testBit_mod_two_pow, Nat.testBit_shiftLeft,
    Nat.testBit_shiftRight]
  by_cases hi : i < 8
  · have hge : ¬ (i ≥ 8) := by omega
    simp [hi, hge]
  · have hge : i ≥ 8 := by omega
    have hadd : 8 + (i - 8) = i := by omega
    simp [hi, hge, hadd]

/-- Eight bit steps on a value: eight bit steps on its low byte, XOR the value
shifted right by eight. -/
theorem reflectedBits_byte (p x : Nat) :
    reflectedBits p 8 x = reflectedBits p 8 (x % 256) ^^^ (x >>> 8) := by
  have hh : ((x >>> 8) <<< 8) % 2 ^ 8 = 0 := by
    rw [Nat.shiftLeft_eq]
    exact Nat.mul_mod_left _ _
  have hs : ((x >>> 8) <<< 8) >>> 8 = x >>> 8 := by
    rw [Nat.shiftLeft_eq, Nat.shiftRight_eq_div_pow (x >>> 8 * 2 ^ 8)]
    exact Nat.mul_div_cancel _ (by norm_num)
  have h := reflectedBits_xor_high p 8 (x % 256) ((x >>> 8) <<< 8) hh
  rw [xor_low_byte_high, hs] at h
  exact h

theorem crc32TableBits_eq_reflectedBits (p : Nat) (hp : p < 2 ^ 32) :
    ∀ (k x : Nat), x < 2 ^ 32 → crc32TableBits p k x = reflectedBits p k x := by
  intro k
  induction k with
  | zero => intro x _; rfl
  | succ k ih =>
    intro x hx
    have hs : x >>> 1 < 2 ^ 32 := by
      rw [Nat.shiftRight_eq_div_pow]
      exact lt_of_le_of_lt (Nat.div_le_self _ _) hx
    have hstep : (if x &&& 1 ≠ 0 then (p ^^^ (x >>> 1)) % 2 ^ 32 else (x >>> 1) % 2 ^ 32)
        = reflectedBit p x := by
      unfold reflectedBit
      rw [Nat.and_one_is_mod]
      by_cases h1 : x % 2 = 1
      · have hne : x % 2 ≠ 0 := by omega
        rw [if_pos hne, if_pos h1, Nat.mod_eq_of_lt (Nat.xor_lt_two_pow hp hs), Nat.xor_comm]
      · have hne : ¬ (x % 2 ≠ 0) := by omega
        rw [if_neg hne, if_neg h1, Nat.mod_eq_of_lt hs]
    show crc32TableBits p k _ = reflectedBits p k (reflectedBit p x)
    rw [hstep]
    exact ih _ (reflectedBit_lt p x 32 hp hx)

/-- The two-variable loop of `crc16` keeps `crc XOR c` equal to the running
value of the one-variable bit loop, `c` being the input shifted so far. -/
theorem crc16TableBits_invariant (p : Nat) (hp : p < 2 ^ 16) :
    ∀ (k crc c : Nat), crc < 2 ^ 16 →
      (crc16TableBits p k (crc, c)).1 ^^^ (crc16TableBits p k (crc, c)).2
          = reflectedBits p k (crc ^^^ c) ∧
        (crc16TableBits p k (crc, c)).2 = c >>> k := by
  intro k
  induction k with
  | zero => intro crc c _; exact ⟨rfl, rfl⟩
  | succ k ih =>
    intro crc c hcrc
    have hs : crc >>> 1 < 2 ^ 16 := by
      rw [Nat.shiftRight_eq_div_pow]
      exact lt_of_le_of_lt (Nat.div_le_self _ _) hcrc
    have hshift : (crc ^^^ c) >>> 1 = (crc >>> 1) ^^^ (c >>> 1) := by
      simp only [Nat.shiftRight_eq_div_pow, Nat.pow_one, Nat.xor_div_two]
    have hlt : (if ((crc ^^^ c) &&& 0x0001) ≠ 0 then ((crc >>> 1) ^^^ p) % 2 ^ 16
        else (crc >>> 1) % 2 ^ 16) < 2 ^ 16 := by
      split <;> exact Nat.mod_lt _ (by norm_num)
    have hstep : (if ((crc ^^^ c) &&& 0x0001) ≠ 0 then ((crc >>> 1) ^^^ p) % 2 ^ 16
        else (crc >>> 1) % 2 ^ 16) ^^^ (c >>> 1) = reflectedBit p (crc ^^^ c) := by
      unfold reflectedBit
      rw [Nat.and_one_is_mod, hshift]
      by_cases h1 : (crc ^^^ c) % 2 = 1
      · have hne : (crc ^^^ c) % 2 ≠ 0 := by omega
        rw [if_pos hne, if_pos h1, Nat.mod_eq_of_lt (Nat.xor_lt_two_pow hs hp),
          Nat.xor_assoc, Nat.xor_comm p, ← Nat.xor_assoc]
      · have hne : ¬ ((crc ^^^ c) % 2 ≠ 0) := by omega
        rw [if_neg hne, if_neg h1, Nat.mod_eq_of_lt hs]
    obtain ⟨h1, h2⟩ := ih _ (c >>> 1) hlt
    show (crc16TableBits p k (_, c >>> 1)).1 ^^^ (crc16TableBits p k (_, c >>> 1)).2
        = reflectedBits p k (reflectedBit p (crc ^^^ c)) ∧
      (crc16TableBits p k (_, c >>> 1)).2 = c >>> (k + 1)
    rw [h1, h2, hstep, ← Nat.shiftRight_add, Nat.add_comm 1 k]
    exact ⟨rfl, rfl⟩

theorem crc16Table_getD (p i : Nat) (hi : i < 256) :
    (crc16Table p).getD i 0 = crc16TableEntry p i := by
  simp [crc16Table, List.getD, List.getElem?_map, List.getElem?_range, hi]

theorem crc32Table_getD (p i : Nat) (hi : i < 256) :
    (crc32Table p).getD i 0 = crc32TableEntry p i := by
  simp [crc32Table, List.getD, List.getElem?_map, List.getElem?_range, hi]

theorem crc16TableEntry_eq (p i : Nat) (hp : p < 2 ^ 16) (hi : i < 256) :
    crc16TableEntry p i = reflectedBits p 8 i := by
  obtain ⟨h1, h2⟩ := crc16TableBits_invariant p hp 8 0 i (by norm_num)
  have hz : i >>> 8 = 0 := by
    rw [Nat.shiftRight_eq_div_pow]
    exact Nat.div_eq_of_lt (by omega)
  rw [h2, hz, Nat.xor_zero, Nat.zero_xor] at h1
  exact h1

theorem xor_byte_shiftRight (c b : Nat) (hb : b < 256) : (c ^^^ b) >>> 8 = c >>> 8 := by
  apply Nat.eq_of_testBit_eq
  intro i
  have hbit : b.testBit (8 + i) = false := by
    apply Nat.testBit_lt_two_pow
    exact lt_of_lt_of_le (by omega : b < 2 ^ 8) (Nat.pow_le_pow_right (by norm_num) (by omega))
  rw [Nat.testBit_shiftRight, Nat.testBit_shiftRight, Nat.testBit_xor, hbit]
  simp

/-! ## Bit-at-a-time CRC: the claims -/

/-- C13.  The table-driven update is the bit-at-a-time CRC.  For every 32-bit
polynomial, every 32-bit running value `c` and every byte `b`, the update of
`crc32`, `table[(c XOR b) AND 0xFF] XOR (c >> 8)`, equals `b` XOR-ed into `c`
followed by eight bit steps (low bit set: shift right by one and XOR the
polynomial; otherwise shift right by one); and the same for `crc16` with a
16-bit polynomial and a 16-bit running value. -/
theorem crc_table_update_is_bitwise (p16 p32 c16 c32 b : Nat)
    (hp32 : p32 < 2 ^ 32) (hc32 : c32 < 2 ^ 32)
    (hp16 : p16 < 2 ^ 16) (hc16 : c16 < 2 ^ 16) (hb : b < 256) :
    crc32Step (crc32Table p32) c32 b = reflectedBits p32 8 (c32 ^^^ b) ∧
    (crc32Table p32).getD ((c32 ^^^ b) &&& 0xFF) 0 ^^^ (c32 >>> 8)
      = reflectedBits p32 8 (c32 ^^^ b) ∧
    crc16Step (crc16Table p16) c16 b = reflectedBits p16 8 (c16 ^^^ b) ∧
    (c16 >>> 8) ^^^ (crc16Table p16).getD ((c16 ^^^ b) &&& 0x00FF) 0
      = reflectedBits p16 8 (c16 ^^^ b) := by
  have hmask : ∀ x : Nat, x &&& 0xFF = x % 256 := fun x =>
    Nat.and_pow_two_sub_one_eq_mod x 8
  have hb32 : b < 2 ^ 32 := by omega
  have hb16 : b < 2 ^ 16 := by omega
  have h32 : (crc32Table p32).getD ((c32 ^^^ b) &&& 0xFF) 0 ^^^ (c32 >>> 8)
      = reflectedBits p32 8 (c32 ^^^ b) := by
    rw [hmask, crc32Table_getD p32 _ (Nat.mod_lt _ (by norm_num)), crc32TableEntry,
      crc32TableBits_eq_reflectedBits p32 hp32 8 _
        (lt_of_lt_of_le (Nat.mod_lt _ (by norm_num)) (by norm_num)),
      reflectedBits_byte p32 (c32 ^^^ b), xor_byte_shiftRight c32 b hb]
  have h16 : (c16 >>> 8) ^^^ (crc16Table p16).getD ((c16 ^^^ b) &&& 0x00FF) 0
      = reflectedBits p16 8 (c16 ^^^ b) := by
    rw [hmask, crc16Table_getD p16 _ (Nat.mod_lt _ (by norm_num)),
      crc16TableEntry_eq p16 _ hp16 (Nat.mod_lt _ (by norm_num)),
      reflectedBits_byte p16 (c16 ^^^ b), xor_byte_shiftRight c16 b hb, Nat.xor_comm]
  refine ⟨?_, h32, ?_, h16⟩
  · unfold crc32Step
    rw [h32]
    exact Nat.mod_eq_of_lt (reflectedBits_lt p32 32 hp32 8 _ (Nat.xor_lt_two_pow hc32 hb32))
  · unfold crc16Step
    rw [h16]
    exact Nat.mod_eq_of_lt (reflectedBits_lt p16 16 hp16 8 _ (Nat.xor_lt_two_pow hc16 hb16))

/-- C13, witness: the first update of the CRC-32 check vector (byte `'1'` into
0xFFFFFFFF) and a CRC-16 update. -/
theorem crc_table_update_is_bitwise_witness :
    (0xEDB88320 < 2 ^ 32 ∧ 0xFFFFFFFF < 2 ^ 32 ∧ 0xA001 < 2 ^ 16 ∧ 0xBEEF < 2 ^ 16 ∧
      0x31 < 256) ∧
    crc32Step (crc32Table 0xEDB88320) 0xFFFFFFFF 0x31
      = reflectedBits 0xEDB88320 8 (0xFFFFFFFF ^^^ 0x31) ∧
    crc16Step (crc16Table 0xA001) 0xBEEF 0x31 = reflectedBits 0xA001 8 (0xBEEF ^^^ 0x31) :=
  ⟨⟨by norm_num, by norm_num, by norm_num, by norm_num, by norm_num⟩,
   (crc_table_update_is_bitwise 0xA001 0xEDB88320 0xBEEF 0xFFFFFFFF 0x31
      (by norm_num) (by norm_num) (by norm_num) (by norm_num) (by norm_num)).1,
   (crc_table_update_is_bitwise 0xA001 0xEDB88320 0xBEEF 0xFFFFFFFF 0x31
      (by norm_num) (by norm_num) (by norm_num) (by norm_num) (by norm_num)).2.2.1⟩

/-- C14.  The table of `crc16` is the standard reflected table.  For every
16-bit polynomial `p` and every byte value `i` in 0..255, the entry built by the
two-variable loop (separate `crc` and `c`, testing `(crc XOR c) AND 1`) equals
eight bit steps from `i` (low bit set: shift right by one and XOR `p`; otherwise
shift right by one), which is also the entry the loop of `crc32` builds for
`p` and `i`; and that entry is what the table holds at index `i`. -/
theorem crc16_table_is_reflected (p i : Nat) (hp : p < 2 ^ 16) (hi : i < 256) :
    crc16TableEntry p i = reflectedBits p 8 i ∧
    crc16TableEntry p i = crc32TableEntry p i ∧
    (crc16Table p).getD i 0 = reflectedBits p 8 i := by
  have h := crc16TableEntry_eq p i hp hi
  refine ⟨h, ?_, ?_⟩
  · rw [h, crc32TableEntry, crc32TableBits_eq_reflectedBits p
      (lt_of_lt_of_le hp (by norm_num)) 8 i (lt_of_lt_of_le hi (by norm_num))]
  · rw [crc16Table_getD p i hi, h]

/-- C14, witness: entry 1 of the table for the polynomial 0xA001 is 0xC0C1. -/
theorem crc16_table_is_reflected_witness :
    (0xA001 < 2 ^ 16 ∧ 1 < 256) ∧
    crc16TableEntry 0xA001 1 = reflectedBits 0xA001 8 1 ∧
    reflectedBits 0xA001 8 1 = 0xC0C1 :=
  ⟨⟨by norm_num, by norm_num⟩,
   (crc16_table_is_reflected 0xA001 1 (by norm_num) (by norm_num)).1, by decide⟩

/-! ## Reads of the CRC loops: lemmas -/

theorem crcLoop_reads {ε : Type} (data : Provider ε) (step : Nat → Nat → Nat)
    (offset size : Nat) :
    ∀ (m k fuel crc : Nat) (log : List (Nat × Nat)),
      offset + 512 * (k + m) < 2 ^ 64 →
      size ≤ offset + 512 * (k + m) → (m = 0 ∨ offset + 512 * (k + m - 1) < size) →
      (∀ j, k ≤ j → j < k + m →
        data.fault (crcReadAt offset size j).1 (crcReadAt offset size j).2 = none) →
      m < fuel →
      crcLoop data step size fuel (offset + 512 * k) crc log =
        ⟨log ++ (List.range' k m).map (crcReadAt offset size),
         Outcome.value ((List.range' k m).foldl
           (fun c j =>
             (data.bytes (crcReadAt offset size j).1 (crcReadAt offset size j).2).foldl step c)
           crc)⟩ := by
  intro m
  induction m with
  | zero =>
    intro k fuel crc log _ h1 _ _ hf
    obtain ⟨f, rfl⟩ : ∃ f, fuel = f + 1 := ⟨fuel - 1, by omega⟩
    rw [crcLoop_no_read data step size f _ crc log (by omega)]
    simp
  | succ m ih =>
    intro k fuel crc log hb h1 h2 hok hf
    obtain ⟨f, rfl⟩ : ∃ f, fuel = f + 1 := ⟨fuel - 1, by omega⟩
    have hlt : offset + 512 * k < size := by omega
    have hfault := hok k (le_refl _) (by omega)
    have hat : (offset + 512 * k + 0) % 2 ^ 64 = (crcReadAt offset size k).1 := by
      show (offset + 512 * k + 0) % 2 ^ 64 = offset + 512 * k
      rw [Nat.add_zero, Nat.mod_eq_of_lt (by omega)]
    have hsz : min bufferSize ((size - 0) % 2 ^ 64) = (crcReadAt offset size k).2 := by
      show min bufferSize ((size - 0) % 2 ^ 64) = min 512 size
      rw [Nat.sub_zero, Nat.mod_eq_of_lt (by omega)]
      rfl
    have hnext : (offset + 512 * k + bufferSize) % 2 ^ 64 = offset + 512 * (k + 1) := by
      unfold bufferSize
      rw [Nat.mod_eq_of_lt (by omega)]
      omega
    have hrec := ih (k + 1) f
      ((data.bytes (crcReadAt offset size k).1 (crcReadAt offset size k).2).foldl step crc)
      (log ++ [crcReadAt offset size k]) (by omega) (by omega) (by omega)
      (fun j hj1 hj2 => hok j (by omega) (by omega)) (by omega)
    rw [crcLoop]
    simp only [hlt, if_true, hat, hsz, hnext, Provider.read, hfault]
    simp only [hrec, List.range'_succ, List.map_cons, List.foldl_cons, List.append_assoc,
      List.singleton_append]

/-- What the CRC loop does when its reads succeed and the offsets do not wrap. -/
theorem crcLoop_whole {ε : Type} (data : Provider ε) (step : Nat → Nat → Nat)
    (offset size fuel crc : Nat)
    (hbound : offset + 512 * crcReadCount offset size < 2 ^ 64)
    (hok : ∀ k, k < crcReadCount offset size →
      data.fault (crcReadAt offset size k).1 (crcReadAt offset size k).2 = none)
    (hfuel : crcReadCount offset size < fuel) :
    crcLoop data step size fuel offset crc [] =
      ⟨crcReads offset size,
       Outcome.value ((readBytes data (crcReads offset size)).foldl step crc)⟩ := by
  have h := crcLoop_reads data step offset size (crcReadCount offset size) 0 fuel crc []
    (by simpa using hbound) (by unfold crcReadCount; omega) (by unfold crcReadCount; omega)
    (fun j _ hj => hok j (by omega)) hfuel
  rw [Nat.mul_zero, Nat.add_zero] at h
  rw [h, readBytes, List.foldl_flatten, List.foldl_map, crcReads, List.foldl_map,
    List.range_eq_range']
  simp

/-- The CRC loop when the read number `k + m` is the first that fails. -/
theorem crcLoop_reads_fail {ε : Type} (data : Provider ε) (step : Nat → Nat → Nat)
    (offset size : Nat) (e : ε) (hsize : size < 2 ^ 64) :
    ∀ (m k fuel crc : Nat) (log : List (Nat × Nat)),
      offset + 512 * (k + m) < size →
      (∀ j, k ≤ j → j < k + m →
        data.fault (crcReadAt offset size j).1 (crcReadAt offset size j).2 = none) →
      data.fault (crcReadAt offset size (k + m)).1 (crcReadAt offset size (k + m)).2 = some e →
      m < fuel →
      crcLoop data step size fuel (offset + 512 * k) crc log =
        ⟨log ++ (List.range' k (m + 1)).map (crcReadAt offset size),
         Outcome.sourceError e⟩ := by
  intro m
  induction m with
  | zero =>
    intro k fuel crc log hlt _ hfail hf
    obtain ⟨f, rfl⟩ : ∃ f, fuel = f + 1 := ⟨fuel - 1, by omega⟩
    have hat : (offset + 512 * k + 0) % 2 ^ 64 = (crcReadAt offset size k).1 := by
      show (offset + 512 * k + 0) % 2 ^ 64 = offset + 512 * k
      rw [Nat.add_zero, Nat.mod_eq_of_lt (by omega)]
    have hsz : min bufferSize ((size - 0) % 2 ^ 64) = (crcReadAt offset size k).2 := by
      show min bufferSize ((size - 0) % 2 ^ 64) = min 512 size
      rw [Nat.sub_zero, Nat.mod_eq_of_lt hsize]
      rfl
    have hlt' : offset + 512 * k < size := by omega
    rw [Nat.add_zero] at hfail
    rw [crcLoop]
    simp only [hlt', if_true, hat, hsz, Provider.read, hfail, List.range'_succ,
      List.range'_zero, List.map_cons, List.map_nil]
  | succ m ih =>
    intro k fuel crc log hlt hok hfail hf
    obtain ⟨f, rfl⟩ : ∃ f, fuel = f + 1 := ⟨fuel - 1, by omega⟩
    have hlt' : offset + 512 * k < size := by omega
    have hfault := hok k (le_refl _) (by omega)
    have hat : (offset + 512 * k + 0) % 2 ^ 64 = (crcReadAt offset size k).1 := by
      show (offset + 512 * k + 0) % 2 ^ 64 = offset + 512 * k
      rw [Nat.add_zero, Nat.mod_eq_of_lt (by omega)]
    have hsz : min bufferSize ((size - 0) % 2 ^ 64) = (crcReadAt offset size k).2 := by
      show min bufferSize ((size - 0) % 2 ^ 64) = min 512 size
      rw [Nat.sub_zero, Nat.mod_eq_of_lt hsize]
      rfl
    have hnext : (offset + 512 * k + bufferSize) % 2 ^ 64 = offset + 512 * (k + 1) := by
      unfold bufferSize
      rw [Nat.mod_eq_of_lt (by omega)]
      omega
    have hrec := ih (k + 1) f
      ((data.bytes (crcReadAt offset size k).1 (crcReadAt offset size k).2).foldl step crc)
      (log ++ [crcReadAt offset size k]) (by omega)
      (fun j hj1 hj2 => hok j (by omega) (by omega))
      (by rw [show k + 1 + m = k + (m + 1) by omega]; exact hfail) (by omega)
    rw [crcLoop]
    simp only [hlt', if_true, hat, hsz, hnext, Provider.read, hfault]
    rw [hrec, List.range'_succ k (m + 1)]
    simp only [List.map_cons, List.append_assoc, List.singleton_append]

/-- The CRC loop from the start of a call when read number `j` is the first that
fails: the reads are the first `j + 1` of the pattern, the outcome the error. -/
theorem crcLoop_first_failure {ε : Type} (data : Provider ε) (step : Nat → Nat → Nat)
    (offset size fuel crc j : Nat) (e : ε)
    (hbound : offset + 512 * crcReadCount offset size < 2 ^ 64)
    (hj : j < crcReadCount offset size)
    (hok : ∀ k, k < j →
      data.fault (crcReadAt offset size k).1 (crcReadAt offset size k).2 = none)
    (hfail : data.fault (crcReadAt offset size j).1 (crcReadAt offset size j).2 = some e)
    (hfuel : crcReadCount offset size < fuel) :
    crcLoop data step size fuel offset crc [] =
      ⟨(crcReads offset size).take (j + 1), Outcome.sourceError e⟩ := by
  have hsize : size < 2 ^ 64 := by unfold crcReadCount at hbound hj; omega
  have h := crcLoop_reads_fail data step offset size e hsize j 0 fuel crc []
    (by unfold crcReadCount at hj; omega) (fun k _ hk => hok k (by omega))
    (by rw [Nat.zero_add]; exact hfail) (by omega)
  rw [Nat.mul_zero, Nat.add_zero] at h
  rw [h, crcReads, ← List.map_take, List.take_range, Nat.min_eq_left (by omega),
    List.range_eq_range']
  simp

theorem Provider.bytes_lt {ε : Type} (data : Provider ε) (offset n : Nat) :
    ∀ b ∈ data.bytes offset n, b < 256 := by
  intro b hb
  simp only [Provider.bytes, List.mem_map] at hb
  obtain ⟨k, _, rfl⟩ := hb
  exact Nat.mod_lt _ (by norm_num)

theorem readBytes_lt {ε : Type} (data : Provider ε) (reads : List (Nat × Nat)) :
    ∀ b ∈ readBytes data reads, b < 256 := by
  intro b hb
  simp only [readBytes, List.mem_flatten, List.mem_map] at hb
  obtain ⟨l, ⟨r, _, rfl⟩, hbl⟩ := hb
  exact Provider.bytes_lt data _ _ b hbl

theorem crc32Step_eq_bits (p c b : Nat) (hp : p < 2 ^ 32) (hc : c < 2 ^ 32) (hb : b < 256) :
    crc32Step (crc32Table p) c b = reflectedBits p 8 (c ^^^ b) := by
  have hmask : (c ^^^ b) &&& 0xFF = (c ^^^ b) % 256 := Nat.and_pow_two_sub_one_eq_mod _ 8
  have hb32 : b < 2 ^ 32 := by omega
  have hraw : (crc32Table p).getD ((c ^^^ b) &&& 0xFF) 0 ^^^ (c >>> 8)
      = reflectedBits p 8 (c ^^^ b) := by
    rw [hmask, crc32Table_getD p _ (Nat.mod_lt _ (by norm_num)), crc32TableEntry,
      crc32TableBits_eq_reflectedBits p hp 8 _
        (lt_of_lt_of_le (Nat.mod_lt _ (by norm_num)) (by norm_num)),
      reflectedBits_byte p (c ^^^ b), xor_byte_shiftRight c b hb]
  unfold crc32Step
  rw [hraw]
  exact Nat.mod_eq_of_lt (reflectedBits_lt p 32 hp 8 _ (Nat.xor_lt_two_pow hc hb32))

theorem crc16Step_eq_bits (p c b : Nat) (hp : p < 2 ^ 16) (hc : c < 2 ^ 16) (hb : b < 256) :
    crc16Step (crc16Table p) c b = reflectedBits p 8 (c ^^^ b) := by
  have hmask : (c ^^^ b) &&& 0x00FF = (c ^^^ b) % 256 := Nat.and_pow_two_sub_one_eq_mod _ 8
  have hb16 : b < 2 ^ 16 := by omega
  have hraw : (c >>> 8) ^^^ (crc16Table p).getD ((c ^^^ b) &&& 0x00FF) 0
      = reflectedBits p 8 (c ^^^ b) := by
    rw [hmask, crc16Table_getD p _ (Nat.mod_lt _ (by norm_num)),
      crc16TableEntry_eq p _ hp (Nat.mod_lt _ (by norm_num)),
      reflectedBits_byte p (c ^^^ b), xor_byte_shiftRight c b hb, Nat.xor_comm]
  unfold crc16Step
  rw [hraw]
  exact Nat.mod_eq_of_lt (reflectedBits_lt p 16 hp 8 _ (Nat.xor_lt_two_pow hc hb16))

/-- A fold of a table-driven step that agrees with eight bit steps on values of
the width is the bit-at-a-time CRC, and stays inside the width. -/
theorem foldl_step_eq_bitwiseCrc (step : Nat → Nat → Nat) (p n : Nat) (hn : 8 ≤ n)
    (hp : p < 2 ^ n)
    (hstep : ∀ c b, c < 2 ^ n → b < 256 → step c b = reflectedBits p 8 (c ^^^ b)) :
    ∀ (bytes : List Nat) (c : Nat), (∀ b ∈ bytes, b < 256) → c < 2 ^ n →
      bytes.foldl step c = bitwiseCrc p c bytes ∧ bitwiseCrc p c bytes < 2 ^ n := by
  intro bytes
  induction bytes with
  | nil => intro c _ hc; exact ⟨rfl, hc⟩
  | cons b rest ih =>
    intro c hbytes hc
    have hb : b < 256 := hbytes b (List.mem_cons_self _ _)
    have hb' : b < 2 ^ n :=
      lt_of_lt_of_le (by omega : b < 2 ^ 8) (Nat.pow_le_pow_right (by norm_num) hn)
    have hnext : reflectedBits p 8 (c ^^^ b) < 2 ^ n :=
      reflectedBits_lt p n hp 8 _ (Nat.xor_lt_two_pow hc hb')
    have hrec := ih (reflectedBits p 8 (c ^^^ b))
      (fun x hx => hbytes x (List.mem_cons_of_mem _ hx)) hnext
    simp only [List.foldl_cons, bitwiseCrc] at hrec ⊢
    rw [hstep c b hc hb]
    exact hrec

/-! ## Reads of the CRC loops: the claim -/

/-- C16, counterexample.  The range `[0, 1300)` owes three reads.  On a source
that holds 600 bytes the second read `(512, 512)` fails: `crc16` and `crc32`
issue two reads, not three, and end with the error of the source.  On a source
that holds exactly the 1300 bytes of the range the third read `(1024, 512)`
fails, and no bytes are folded into a result either. -/
theorem crc_reads_cut_short :
    crcReadCount 0 1300 = 3 ∧ 0 + 512 * crcReadCount 0 1300 < 2 ^ 64 ∧
    crc16 (memorySource (List.replicate 600 0)) 0 1300 0xA001 0 4
      = ⟨[(0, 512), (512, 512)], Outcome.sourceError ()⟩ ∧
    crc32 (memorySource (List.replicate 600 0)) 0 1300 0xEDB88320 0xFFFFFFFF 4
      = ⟨[(0, 512), (512, 512)], Outcome.sourceError ()⟩ ∧
    crc16 (memorySource (List.replicate 1300 0)) 0 1300 0xA001 0 4
      = ⟨[(0, 512), (512, 512), (1024, 512)], Outcome.sourceError ()⟩ ∧
    crc32 (memorySource (List.replicate 1300 0)) 0 1300 0xEDB88320 0xFFFFFFFF 4
      = ⟨[(0, 512), (512, 512), (1024, 512)], Outcome.sourceError ()⟩ := by
  refine ⟨by decide, by decide, by decide!, by decide!, by decide!, by decide!⟩

/-- C16, amended.  The read pattern of the CRC loops as they are written.  For
every source, offset and size with `offset + 512 * ceil((size - offset) / 512)
< 2^64` (16-bit and 32-bit polynomial and `init`, step budget above the number
of reads):
* when the source serves every read, `crc16` and `crc32` issue exactly the
  `ceil((size - offset) / 512)` reads `crcReads offset size`, the `k`-th at
  `offset + 512 * k` and every one of length `min(512, size)`, and return the CRC
  of all the bytes of all these reads from `init`, byte by byte (`crc32`: XOR
  0xFFFFFFFF), which is the fold of the table-driven step;
* when read number `j` is the first one that fails, the reads issued are the
  first `j + 1` of that pattern and the call ends with the error of the source;
* when `offset ≥ size` there is no read and the results are `init` and
  `init XOR 0xFFFFFFFF`. -/
theorem crc_read_pattern {ε : Type} (data : Provider ε)
    (offset size polynomial16 polynomial32 init16 init32 fuel : Nat)
    (hbound : offset + 512 * crcReadCount offset size < 2 ^ 64)
    (hfuel : crcReadCount offset size < fuel)
    (hp16 : polynomial16 < 2 ^ 16) (hp32 : polynomial32 < 2 ^ 32)
    (h16 : init16 < 2 ^ 16) (h32 : init32 < 2 ^ 32) :
    ((∀ k, k < crcReadCount offset size →
        data.fault (crcReadAt offset size k).1 (crcReadAt offset size k).2 = none) →
      crc16 data offset size polynomial16 init16 fuel =
        ⟨crcReads offset size,
         Outcome.value (bitwiseCrc polynomial16 init16
           (readBytes data (crcReads offset size)))⟩ ∧
      crc32 data offset size polynomial32 init32 fuel =
        ⟨crcReads offset size,
         Outcome.value (bitwiseCrc polynomial32 init32
           (readBytes data (crcReads offset size)) ^^^ 0xFFFFFFFF)⟩) ∧
    (bitwiseCrc polynomial16 init16 (readBytes data (crcReads offset size))
        = (readBytes data (crcReads offset size)).foldl
            (fun crc b =>
              ((crc >>> 8) ^^^ (crc16Table polynomial16).getD ((crc ^^^ b) &&& 0x00FF) 0)
                % 2 ^ 16)
            init16 ∧
      bitwiseCrc polynomial32 init32 (readBytes data (crcReads offset size))
        = (readBytes data (crcReads offset size)).foldl
            (fun c b =>
              ((crc32Table polynomial32).getD ((c ^^^ b) &&& 0xFF) 0 ^^^ (c >>> 8)) % 2 ^ 32)
            init32) ∧
    (∀ j e, j < crcReadCount offset size →
      data.fault (crcReadAt offset size j).1 (crcReadAt offset size j).2 = some e →
      (∀ k, k < j →
        data.fault (crcReadAt offset size k).1 (crcReadAt offset size k).2 = none) →
      crc16 data offset size polynomial16 init16 fuel =
        ⟨(crcReads offset size).take (j + 1), Outcome.sourceError e⟩ ∧
      crc32 data offset size polynomial32 init32 fuel =
        ⟨(crcReads offset size).take (j + 1), Outcome.sourceError e⟩) ∧
    (size ≤ offset →
      crc16 data offset size polynomial16 init16 fuel = ⟨[], Outcome.value init16⟩ ∧
      crc32 data offset size polynomial32 init32 fuel
        = ⟨[], Outcome.value (init32 ^^^ 0xFFFFFFFF)⟩) ∧
    ((crcReads offset size).length = crcReadCount offset size ∧
      size - offset ≤ 512 * crcReadCount offset size ∧
      512 * crcReadCount offset size < size - offset + 512) ∧
    (∀ k, k < crcReadCount offset size →
      (crcReads offset size)[k]? = some (offset + 512 * k, min 512 size)) := by
  have hbytes := readBytes_lt data (crcReads offset size)
  have hf16 := foldl_step_eq_bitwiseCrc (crc16Step (crc16Table polynomial16)) polynomial16 16
    (by norm_num) hp16 (fun c b hc hb => crc16Step_eq_bits polynomial16 c b hp16 hc hb)
    (readBytes data (crcReads offset size)) init16 hbytes h16
  have hf32 := foldl_step_eq_bitwiseCrc (crc32Step (crc32Table polynomial32)) polynomial32 32
    (by norm_num) hp32 (fun c b hc hb => crc32Step_eq_bits polynomial32 c b hp32 hc hb)
    (readBytes data (crcReads offset size)) init32 hbytes h32
  have hall : (∀ k, k < crcReadCount offset size →
        data.fault (crcReadAt offset size k).1 (crcReadAt offset size k).2 = none) →
      crc16 data offset size polynomial16 init16 fuel =
        ⟨crcReads offset size,
         Outcome.value (bitwiseCrc polynomial16 init16
           (readBytes data (crcReads offset size)))⟩ ∧
      crc32 data offset size polynomial32 init32 fuel =
        ⟨crcReads offset size,
         Outcome.value (bitwiseCrc polynomial32 init32
           (readBytes data (crcReads offset size)) ^^^ 0xFFFFFFFF)⟩ := by
    intro hok
    constructor
    · simp only [crc16]
      rw [Nat.mod_eq_of_lt h16, crcLoop_whole data _ offset size fuel init16 hbound hok hfuel,
        hf16.1]
    · simp only [crc32]
      rw [Nat.mod_eq_of_lt h32, crcLoop_whole data _ offset size fuel init32 hbound hok hfuel,
        hf32.1]
      simp only [complementRun, not32_eq_xor _ hf32.2]
  refine ⟨hall, ⟨hf16.1.symm, hf32.1.symm⟩, ?_, ?_, ⟨?_, ?_, ?_⟩, ?_⟩
  · intro j e hj hfail hok
    constructor
    · simp only [crc16]
      rw [crcLoop_first_failure data _ offset size fuel _ j e hbound hj hok hfail hfuel]
    · simp only [crc32]
      rw [crcLoop_first_failure data _ offset size fuel _ j e hbound hj hok hfail hfuel]
      rfl
  · intro hle
    have h0 : crcReadCount offset size = 0 := by unfold crcReadCount; omega
    have hnone : crcReads offset size = [] := by simp [crcReads, h0]
    obtain ⟨hc16, hc32⟩ := hall (fun k hk => absurd hk (by omega))
    rw [hc16, hc32, hnone]
    exact ⟨rfl, rfl⟩
  · simp [crcReads]
  · unfold crcReadCount; omega
  · unfold crcReadCount; omega
  · intro k hk
    simp [crcReads, crcReadAt, hk]

/-- C16, witness.  The range `[100, 1400)` of a source that never fails: three
reads of 512 bytes reaching up to offset 1636, and the two checksums of those
1536 bytes.  The range `[0, 1300)` of a source that holds 1024 bytes: the third
read fails and ends the call. -/
theorem crc_read_pattern_witness :
    (100 + 512 * crcReadCount 100 1300 < 2 ^ 64 ∧ crcReadCount 100 1300 < 4 ∧
      0xA001 < 2 ^ 16 ∧ 0xEDB88320 < 2 ^ 32 ∧ 0 < 2 ^ 16 ∧ 0xFFFFFFFF < 2 ^ 32) ∧
    (crc16 patternSource 100 1300 0xA001 0 4
        = ⟨[(100, 512), (612, 512), (1124, 512)], Outcome.value 53337⟩ ∧
      crc32 patternSource 100 1300 0xEDB88320 0xFFFFFFFF 4
        = ⟨[(100, 512), (612, 512), (1124, 512)], Outcome.value 1900257205⟩) ∧
    (2 < crcReadCount 0 1300 ∧
      spikeSource.fault (crcReadAt 0 1300 2).1 (crcReadAt 0 1300 2).2 = some () ∧
      crc16 spikeSource 0 1300 0xA001 0 4
        = ⟨[(0, 512), (512, 512), (1024, 512)], Outcome.sourceError ()⟩) :=
  ⟨⟨by decide, by decide, by norm_num, by norm_num, by norm_num, by norm_num⟩,
   ⟨(((crc_read_pattern patternSource 100 1300 0xA001 0xEDB88320 0 0xFFFFFFFF 4
        (by decide) (by decide) (by norm_num) (by norm_num) (by norm_num) (by norm_num)).1
        (fun _ _ => rfl)).1.trans
      (congrArg (fun v => (⟨crcReads 100 1300, Outcome.value v⟩ : Run Unit Nat))
        (crc_read_pattern patternSource 100 1300 0xA001 0xEDB88320 0 0xFFFFFFFF 4
          (by decide) (by decide) (by norm_num) (by norm_num) (by norm_num)
          (by norm_num)).2.1.1)).trans (by decide!),
    (((crc_read_pattern patternSource 100 1300 0xA001 0xEDB88320 0 0xFFFFFFFF 4
        (by decide) (by decide) (by norm_num) (by norm_num) (by norm_num) (by norm_num)).1
        (fun _ _ => rfl)).2.trans
      (congrArg
        (fun v => (⟨crcReads 100 1300, Outcome.value (v ^^^ 0xFFFFFFFF)⟩ : Run Unit Nat))
        (crc_read_pattern patternSource 100 1300 0xA001 0xEDB88320 0 0xFFFFFFFF 4
          (by decide) (by decide) (by norm_num) (by norm_num) (by norm_num)
          (by norm_num)).2.1.2)).trans (by decide!)⟩,
   ⟨by decide, by decide,
    ((crc_read_pattern spikeSource 0 1300 0xA001 0xEDB88320 0 0xFFFFFFFF 4
        (by decide) (by decide) (by norm_num) (by norm_num) (by norm_num) (by norm_num)).2.2.1
        2 () (by decide) (by decide)
        (fun k hk => by
          have hk' : k = 0 ∨ k = 1 := by omega
          rcases hk' with rfl | rfl <;> decide)).1.trans (by decide)⟩⟩

/-! ## Read failures: lemmas -/

theorem digestLoop_stopsAtFailure {ε κ : Type} (data : Provider ε)
    (update : κ → List Nat → κ) (offset size : Nat) :
    ∀ (fuel bufferOffset : Nat) (ctx : κ) (log : List (Nat × Nat)),
      (∀ q ∈ log, data.fault q.1 q.2 = none) →
      StopsAtFailure data (digestLoop data update offset size fuel bufferOffset ctx log) := by
  intro fuel
  induction fuel with
  | zero =>
    intro bufferOffset ctx log hlog
    exact ⟨fun e h => by simp [digestLoop] at h, fun _ => hlog⟩
  | succ n ih =>
    intro bufferOffset ctx log hlog
    unfold digestLoop
    split
    · simp only [Provider.read]
      cases hf : data.fault ((offset + bufferOffset) % 2 ^ 64)
          (min bufferSize ((size - bufferOffset) % 2 ^ 64)) with
      | some e =>
        refine ⟨fun e' h => ⟨log, _, rfl, ?_, hlog⟩, fun h => absurd rfl (h e)⟩
        simp only [Outcome.sourceError.injEq] at h
        rw [← h]
        exact hf
      | none =>
        apply ih
        intro q hq
        rcases List.mem_append.mp hq with h | h
        · exact hlog q h
        · rw [List.mem_singleton.mp h]
          exact hf
    · exact ⟨fun e h => by simp at h, fun _ => hlog⟩

theorem crcLoop_stopsAtFailure {ε : Type} (data : Provider ε) (step : Nat → Nat → Nat)
    (size : Nat) :
    ∀ (fuel offset crc : Nat) (log : List (Nat × Nat)),
      (∀ q ∈ log, data.fault q.1 q.2 = none) →
      StopsAtFailure data (crcLoop data step size fuel offset crc log) := by
  intro fuel
  induction fuel with
  | zero =>
    intro offset crc log hlog
    exact ⟨fun e h => by simp [crcLoop] at h, fun _ => hlog⟩
  | succ n ih =>
    intro offset crc log hlog
    unfold crcLoop
    simp only
    split
    · simp only [Provider.read]
      cases hf : data.fault ((offset + 0) % 2 ^ 64) (min bufferSize ((size - 0) % 2 ^ 64)) with
      | some e =>
        refine ⟨fun e' h => ⟨log, _, rfl, ?_, hlog⟩, fun h => absurd rfl (h e)⟩
        simp only [Outcome.sourceError.injEq] at h
        rw [← h]
        exact hf
      | none =>
        apply ih
        intro q hq
        rcases List.mem_append.mp hq with h | h
        · exact hlog q h
        · rw [List.mem_singleton.mp h]
          exact hf
    · exact ⟨fun e h => by simp at h, fun _ => hlog⟩

theorem finishRun_stopsAtFailure {ε κ : Type} (data : Provider ε) (finish : κ → List Nat)
    (length : Nat) (r : Run ε κ) (h : StopsAtFailure data r) :
    StopsAtFailure data (finishRun finish length r) := by
  obtain ⟨reads, outcome⟩ := r
  cases outcome with
  | value ctx =>
    exact ⟨fun e he => by simp [finishRun] at he, fun _ => h.2 (fun e he => by simp at he)⟩
  | sourceError e =>
    refine ⟨fun e' he' => ?_, fun hne => absurd rfl (hne e)⟩
    have hee : e = e' := by simpa [finishRun] using he'
    subst hee
    exact h.1 e rfl
  | running =>
    exact ⟨fun e he => by simp [finishRun] at he, fun _ => h.2 (fun e he => by simp at he)⟩

theorem complementRun_stopsAtFailure {ε : Type} (data : Provider ε) (r : Run ε Nat)
    (h : StopsAtFailure data r) : StopsAtFailure data (complementRun r) := by
  obtain ⟨reads, outcome⟩ := r
  cases outcome with
  | value c =>
    exact ⟨fun e he => by simp [complementRun] at he, fun _ => h.2 (fun e he => by simp at he)⟩
  | sourceError e => exact h
  | running => exact h

/-- A run that stops at its first failed read, seen from a failed read of its
log: that read is the last one and its error is the outcome. -/
theorem StopsAtFailure.at_failed_read {ε α : Type} {data : Provider ε} {r : Run ε α}
    (h : StopsAtFailure data r) (i : Nat) (q : Nat × Nat) (e : ε)
    (hq : r.reads[i]? = some q) (hf : data.fault q.1 q.2 = some e) :
    r.outcome = Outcome.sourceError e ∧ r.reads.length = i + 1 := by
  have hmem : q ∈ r.reads := List.getElem?_mem hq
  by_cases hex : ∃ e', r.outcome = Outcome.sourceError e'
  · obtain ⟨e', he'⟩ := hex
    obtain ⟨pre, q0, hreads, hf0, hpre⟩ := h.1 e' he'
    rw [hreads] at hq
    have hi : i < (pre ++ [q0]).length := (List.getElem?_eq_some.mp hq).1
    simp only [List.length_append, List.length_singleton] at hi
    by_cases hlt : i < pre.length
    · rw [List.getElem?_append_left hlt] at hq
      have := hpre q (List.getElem?_mem hq)
      rw [this] at hf
      cases hf
    · have hi' : i = pre.length := by omega
      subst hi'
      rw [List.getElem?_append_right (le_refl _)] at hq
      simp only [Nat.sub_self, List.getElem?_cons_zero, Option.some.injEq] at hq
      subst hq
      rw [hf0] at hf
      cases hf
      exact ⟨he', by rw [hreads]; simp⟩
  · have hnone := h.2 (fun e' he' => hex ⟨e', he'⟩) q hmem
    rw [hnone] at hf
    cases hf

/-! ## Read failures: the claim -/

/-- C12.  Read-failure propagation.  For each of `crc16`, `crc32`, `md5`, `sha1`,
`sha224`, `sha256`, `sha384` and `sha512`, every source, range and step budget:
if the `i`-th read the call issues is a read that the source fails with error
`e`, then the call ends with that error, not with a checksum or digest, and
that read is the last one it issues (no later chunk is read), wherever in the
range the failing read lies. -/
theorem read_failure_propagates {ε κ₁ κ₂ κ₃ κ₄ : Type}
    (E₁ : HashEngine κ₁) (E₂ : HashEngine κ₂)
    (F₁ : FlaggedHashEngine κ₃) (F₂ : FlaggedHashEngine κ₄)
    (data : Provider ε) (offset size polynomial16 polynomial32 init16 init32 fuel : Nat)
    (i : Nat) (q : Nat × Nat) (e : ε) (hf : data.fault q.1 q.2 = some e) :
    ((crc16 data offset size polynomial16 init16 fuel).reads[i]? = some q →
      (crc16 data offset size polynomial16 init16 fuel).outcome = Outcome.sourceError e ∧ (crc16 data offset size polynomial16 init16 fuel).reads.length = i + 1) ∧
    ((crc32 data offset size polynomial32 init32 fuel).reads[i]? = some q →
      (crc32 data offset size polynomial32 init32 fuel).outcome = Outcome.sourceError e ∧ (crc32 data offset size polynomial32 init32 fuel).reads.length = i + 1) ∧
    ((md5 E₁ data offset size fuel).reads[i]? = some q →
      (md5 E₁ data offset size fuel).outcome = Outcome.sourceError e ∧ (md5 E₁ data offset size fuel).reads.length = i + 1) ∧
    ((sha1 E₂ data offset size fuel).reads[i]? = some q →
      (sha1 E₂ data offset size fuel).outcome = Outcome.sourceError e ∧ (sha1 E₂ data offset size fuel).reads.length = i + 1) ∧
    ((sha224 F₁ data offset size fuel).reads[i]? = some q →
      (sha224 F₁ data offset size fuel).outcome = Outcome.sourceError e ∧ (sha224 F₁ data offset size fuel).reads.length = i + 1) ∧
    ((sha256 F₁ data offset size fuel).reads[i]? = some q →
      (sha256 F₁ data offset size fuel).outcome = Outcome.sourceError e ∧ (sha256 F₁ data offset size fuel).reads.length = i + 1) ∧
    ((sha384 F₂ data offset size fuel).reads[i]? = some q →
      (sha384 F₂ data offset size fuel).outcome = Outcome.sourceError e ∧ (sha384 F₂ data offset size fuel).reads.length = i + 1) ∧
    ((sha512 F₂ data offset size fuel).reads[i]? = some q →
      (sha512 F₂ data offset size fuel).outcome = Outcome.sourceError e ∧ (sha512 F₂ data offset size fuel).reads.length = i + 1) := by
  have hnil : ∀ q' ∈ ([] : List (Nat × Nat)), data.fault q'.1 q'.2 = none :=
    fun _ h => absurd h (List.not_mem_nil _)
  have hcrc : ∀ (step : Nat → Nat → Nat) (init : Nat),
      StopsAtFailure data (crcLoop data step size fuel offset init []) :=
    fun step init => crcLoop_stopsAtFailure data step size fuel offset init [] hnil
  have hdig : ∀ {κ : Type} (update : κ → List Nat → κ) (finish : κ → List Nat)
      (length : Nat) (start : κ),
      StopsAtFailure data
        (finishRun finish length (digestLoop data update offset size fuel 0 start [])) :=
    fun update finish length start => finishRun_stopsAtFailure data finish length _
      (digestLoop_stopsAtFailure data update offset size fuel 0 start [] hnil)
  refine ⟨fun hq => ?_, fun hq => ?_, fun hq => ?_, fun hq => ?_, fun hq => ?_, fun hq => ?_,
    fun hq => ?_, fun hq => ?_⟩
  · exact (hcrc _ _).at_failed_read i q e hq hf
  · exact (complementRun_stopsAtFailure data _ (hcrc _ _)).at_failed_read i q e hq hf
  · exact (hdig _ _ _ _).at_failed_read i q e hq hf
  · exact (hdig _ _ _ _).at_failed_read i q e hq hf
  · exact (hdig _ _ _ _).at_failed_read i q e hq hf
  · exact (hdig _ _ _ _).at_failed_read i q e hq hf
  · exact (hdig _ _ _ _).at_failed_read i q e hq hf
  · exact (hdig _ _ _ _).at_failed_read i q e hq hf

/-- C12, witness: a range of 1300 bytes at offset 0 of a source that holds 1024
bytes.  The third read fails, of `md5` at `(1024, 276)` and of `crc32` at
`(1024, 512)`; both calls end there with the error of the source. -/
theorem read_failure_propagates_witness :
    (spikeSource.fault 1024 276 = some () ∧
      (md5 listEngine spikeSource 0 1300 4).reads[2]? = some (1024, 276) ∧
      spikeSource.fault 1024 512 = some () ∧
      (crc32 spikeSource 0 1300 0xEDB88320 0xFFFFFFFF 4).reads[2]? = some (1024, 512)) ∧
    ((md5 listEngine spikeSource 0 1300 4).outcome = Outcome.sourceError () ∧
      (md5 listEngine spikeSource 0 1300 4).reads.length = 2 + 1) ∧
    ((crc32 spikeSource 0 1300 0xEDB88320 0xFFFFFFFF 4).outcome = Outcome.sourceError () ∧
      (crc32 spikeSource 0 1300 0xEDB88320 0xFFFFFFFF 4).reads.length = 2 + 1) :=
  ⟨⟨by decide, by decide!, by decide, by decide!⟩,
   (read_failure_propagates listEngine listEngine flagEngine flagEngine spikeSource
      0 1300 0xA001 0xEDB88320 0 0xFFFFFFFF 4 2 (1024, 276) () (by decide)).2.2.1
     (by decide!),
   (read_failure_propagates listEngine listEngine flagEngine flagEngine spikeSource
      0 1300 0xA001 0xEDB88320 0 0xFFFFFFFF 4 2 (1024, 512) () (by decide)).2.1
     (by decide!)⟩

/-! ## Truncated digest variants: lemmas -/

/-- The reads of the digest loop do not depend on the context. -/
theorem digestLoop_reads_eq {ε κ : Type} (data : Provider ε) (update : κ → List Nat → κ)
    (offset size : Nat) :
    ∀ (fuel bufferOffset : Nat) (ctx ctx' : κ) (log : List (Nat × Nat)),
      (digestLoop data update offset size fuel bufferOffset ctx log).reads
        = (digestLoop data update offset size fuel bufferOffset ctx' log).reads := by
  intro fuel
  induction fuel with
  | zero => intro _ _ _ _; rfl
  | succ n ih =>
    intro bufferOffset ctx ctx' log
    unfold digestLoop
    split
    · simp only [Provider.read]
      cases data.fault ((offset + bufferOffset) % 2 ^ 64)
          (min bufferSize ((size - bufferOffset) % 2 ^ 64)) with
      | some e => rfl
      | none => exact ih _ _ _ _
    · rfl

theorem finishRun_reads {ε κ : Type} (finish : κ → List Nat) (length : Nat) (r : Run ε κ) :
    (finishRun finish length r).reads = r.reads := by
  obtain ⟨reads, outcome⟩ := r
  cases outcome <;> rfl

theorem writeInto_take (stored : List Nat) (n m : Nat) (h : n ≤ m) :
    (writeInto stored (List.replicate m 0)).take n = writeInto stored (List.replicate n 0) := by
  simp only [writeInto, List.length_replicate, List.take_take, List.drop_replicate,
    Nat.min_eq_left h]
  apply List.ext_getElem?
  intro i
  simp only [List.getElem?_take, List.getElem?_append, List.length_map,
    List.getElem?_replicate]
  by_cases hi : i < n
  · by_cases hs : i < stored.length
    · simp only [hi, hs, if_true]
    · have h1 : i - stored.length < m - stored.length := by omega
      have h2 : i - stored.length < n - stored.length := by omega
      simp only [hi, hs, h1, h2, if_true, if_false]
  · simp only [hi, if_false]

/-- The first `n` bytes of a longer result array are the shorter result array. -/
theorem finishInto_take {κ : Type} (finish : κ → List Nat) (n m : Nat) (h : n ≤ m) (ctx : κ) :
    (finishInto finish m ctx).take n = finishInto finish n ctx :=
  writeInto_take (finish ctx) n m h

theorem finishInto_length {κ : Type} (finish : κ → List Nat) (n : Nat) (ctx : κ) :
    (finishInto finish n ctx).length = n := by
  rw [finishInto, writeInto_length, List.length_replicate]

/-- Two digest functions that run the same loop and differ in the length of the
result array: the shorter result is a prefix of the longer one. -/
theorem finishRun_take {ε κ : Type} (finish : κ → List Nat) (n m : Nat) (h : n ≤ m)
    (r : Run ε κ) (d : List Nat) (hd : (finishRun finish m r).outcome = Outcome.value d) :
    (finishRun finish n r).outcome = Outcome.value (d.take n) ∧ d.length = m := by
  obtain ⟨reads, outcome⟩ := r
  cases outcome with
  | value ctx =>
    simp only [finishRun, Outcome.value.injEq] at hd
    subst hd
    exact ⟨by simp only [finishRun, finishInto_take finish n m h], finishInto_length finish m ctx⟩
  | sourceError e => simp [finishRun] at hd
  | running => simp [finishRun] at hd

/-! ## Truncated digest variants: the claim -/

/-- C11, counterexample.  With an engine whose start context records the flag
and whose finish emits the context (`flagEngine`), on the three bytes 0, 1, 2 at
offset 0 of `patternSource`: `sha224` starts with the flag `true` and returns
1, 0, 1, 2 and 24 zeros, `sha256` starts with the flag `false` and returns
0, 0, 1, 2 and 28 zeros, so the 28 bytes of `sha224` are not the first 28 bytes
of `sha256`. -/
theorem truncated_variant_differs :
    (sha224 flagEngine patternSource 0 3 2).outcome
      = Outcome.value (1 :: 0 :: 1 :: 2 :: List.replicate 24 0) ∧
    (sha256 flagEngine patternSource 0 3 2).outcome
      = Outcome.value (0 :: 0 :: 1 :: 2 :: List.replicate 28 0) ∧
    (0 :: 0 :: 1 :: 2 :: List.replicate 28 0).take 28
      ≠ 1 :: 0 :: 1 :: 2 :: List.replicate 24 0 ∧
    (sha384 flagEngine patternSource 0 3 2).outcome
      = Outcome.value (1 :: 0 :: 1 :: 2 :: List.replicate 44 0) ∧
    (sha512 flagEngine patternSource 0 3 2).outcome
      = Outcome.value (0 :: 0 :: 1 :: 2 :: List.replicate 60 0) ∧
    (0 :: 0 :: 1 :: 2 :: List.replicate 60 0).take 48
      ≠ 1 :: 0 :: 1 :: 2 :: List.replicate 44 0 := by
  refine ⟨by decide, by decide, by decide, by decide, by decide, by decide⟩

/-- C11, amended.  For every engine, source, offset, size and step budget,
`sha224` issues the same reads as `sha256` and `sha384` the same as `sha512`;
their results have 28, 32, 48 and 64 bytes; the variants differ only in the flag
handed to the start routine, so that when the start context is the same for
both flags the 28 bytes `sha224` returns are the first 28 bytes `sha256`
returns, and the 48 bytes `sha384` returns are the first 48 bytes `sha512`
returns. -/
theorem truncated_variants_relation {ε κ₁ κ₂ : Type}
    (F₁ : FlaggedHashEngine κ₁) (F₂ : FlaggedHashEngine κ₂)
    (data : Provider ε) (offset size fuel : Nat) :
    ((sha224 F₁ data offset size fuel).reads = (sha256 F₁ data offset size fuel).reads ∧
      (sha384 F₂ data offset size fuel).reads = (sha512 F₂ data offset size fuel).reads) ∧
    ((∀ d, (sha224 F₁ data offset size fuel).outcome = Outcome.value d → d.length = 28) ∧
      (∀ d, (sha256 F₁ data offset size fuel).outcome = Outcome.value d → d.length = 32) ∧
      (∀ d, (sha384 F₂ data offset size fuel).outcome = Outcome.value d → d.length = 48) ∧
      (∀ d, (sha512 F₂ data offset size fuel).outcome = Outcome.value d → d.length = 64)) ∧
    (F₁.starts true = F₁.starts false →
      ∀ d, (sha256 F₁ data offset size fuel).outcome = Outcome.value d →
        (sha224 F₁ data offset size fuel).outcome = Outcome.value (d.take 28)) ∧
    (F₂.starts true = F₂.starts false →
      ∀ d, (sha512 F₂ data offset size fuel).outcome = Outcome.value d →
        (sha384 F₂ data offset size fuel).outcome = Outcome.value (d.take 48)) := by
  refine ⟨⟨?_, ?_⟩, ⟨?_, ?_, ?_, ?_⟩, ?_, ?_⟩
  · simp only [sha224, sha256, finishRun_reads]
    exact digestLoop_reads_eq data F₁.update offset size fuel 0 _ _ []
  · simp only [sha384, sha512, finishRun_reads]
    exact digestLoop_reads_eq data F₂.update offset size fuel 0 _ _ []
  · exact fun d hd => (finishRun_take F₁.finish 28 28 (le_refl _) _ d hd).2
  · exact fun d hd => (finishRun_take F₁.finish 32 32 (le_refl _) _ d hd).2
  · exact fun d hd => (finishRun_take F₂.finish 48 48 (le_refl _) _ d hd).2
  · exact fun d hd => (finishRun_take F₂.finish 64 64 (le_refl _) _ d hd).2
  · intro hs d hd
    unfold sha224
    rw [hs]
    exact (finishRun_take F₁.finish 28 32 (by norm_num) _ d hd).1
  · intro hs d hd
    unfold sha384
    rw [hs]
    exact (finishRun_take F₂.finish 48 64 (by norm_num) _ d hd).1

/-- C11, witness: an engine that ignores the flag, on the three bytes 0, 1, 2. -/
theorem truncated_variants_relation_witness :
    (plainEngine.starts true = plainEngine.starts false ∧
      (sha256 plainEngine patternSource 0 3 2).outcome
        = Outcome.value (0 :: 1 :: 2 :: List.replicate 29 0)) ∧
    (sha224 plainEngine patternSource 0 3 2).outcome
      = Outcome.value ((0 :: 1 :: 2 :: List.replicate 29 0).take 28) :=
  ⟨⟨rfl, by decide⟩,
   (truncated_variants_relation plainEngine plainEngine patternSource 0 3 2).2.2.1 rfl _
     (by decide)⟩

/-! ## Buffer sizes of the base64 codec: lemmas -/

/-- The function `encode64` hands `encode64Capacity` to the primitive and
allocates that many bytes. -/
theorem encode64_eq (prim : Base64Primitive) (input : List Nat) :
    encode64 prim input =
      if (prim.encode (encode64Capacity input.length) input).ret ≠ 0 then []
      else writeInto (prim.encode (encode64Capacity input.length) input).stored
        (List.replicate (encode64Capacity input.length) 0) := by
  simp only [encode64, encode64Capacity, List.length_replicate]

/-- The function `decode64` hands `decode64Capacity` to the primitive and
allocates that many bytes. -/
theorem decode64_eq (prim : Base64Primitive) (input : List Nat) :
    decode64 prim input =
      if (prim.decode (decode64Capacity input.length) input).ret ≠ 0 then []
      else writeInto (prim.decode (decode64Capacity input.length) input).stored
        (List.replicate (decode64Capacity input.length) 0) := by
  simp only [decode64, decode64Capacity, List.length_replicate]

theorem ceil_div_three (n : Nat) : ⌈(n : ℚ) / 3⌉₊ = (n + 2) / 3 := by
  apply le_antisymm
  · rw [Nat.ceil_le]
    have h : n ≤ 3 * ((n + 2) / 3) := by omega
    have h' : (n : ℚ) ≤ 3 * (((n + 2) / 3 : ℕ) : ℚ) := by exact_mod_cast h
    linarith
  · have h := Nat.le_ceil ((n : ℚ) / 3)
    have h' : (n : ℚ) ≤ 3 * (⌈(n : ℚ) / 3⌉₊ : ℚ) := by linarith
    have h'' : n ≤ 3 * ⌈(n : ℚ) / 3⌉₊ := by exact_mod_cast h'
    omega

theorem ceil_six_eighths (c : Nat) : ⌈(6 * c : ℚ) / 8⌉₊ = (6 * c + 7) / 8 := by
  apply le_antisymm
  · rw [Nat.ceil_le]
    have h : 6 * c ≤ 8 * ((6 * c + 7) / 8) := by omega
    have h' : (6 * c : ℚ) ≤ 8 * (((6 * c + 7) / 8 : ℕ) : ℚ) := by exact_mod_cast h
    linarith
  · have h := Nat.le_ceil ((6 * c : ℚ) / 8)
    have h' : (6 * c : ℚ) ≤ 8 * (⌈(6 * c : ℚ) / 8⌉₊ : ℚ) := by linarith
    have h'' : 6 * c ≤ 8 * ⌈(6 * c : ℚ) / 8⌉₊ := by exact_mod_cast h'
    omega

theorem encode64Capacity_eq (n : Nat) (hno : 4 * ((n + 2) / 3) + 1 < 2 ^ 64) :
    encode64Capacity n = 4 * ((n + 2) / 3) + 1 := by
  unfold encode64Capacity
  have h1 : (n + 2) % 2 ^ 64 = n + 2 := Nat.mod_eq_of_lt (by omega)
  rw [h1, Nat.mod_eq_of_lt (a := 4 * ((n + 2) / 3)) (by omega), Nat.mod_eq_of_lt hno]

theorem decode64Capacity_eq (n : Nat) (hno : 3 * n < 2 ^ 64) :
    decode64Capacity n = 3 * n / 4 + 1 := by
  unfold decode64Capacity
  rw [Nat.mod_eq_of_lt hno, Nat.mod_eq_of_lt (by omega)]

/-! ## Buffer sizes of the base64 codec: the claims -/

/-- C15.  Buffer sizing of `encode64`.  For every input of length `n` with no
64-bit overflow in `4 * ((n + 2) / 3) + 1`: the capacity `encode64` allocates and
hands to the primitive is `4 * ((n + 2) / 3) + 1` with integer division, which
equals `4 * ceil(n / 3) + 1`; and when the primitive succeeds the returned
sequence has exactly that length. -/
theorem encode64_buffer_sizing (prim : Base64Primitive) (input : List Nat)
    (hno : 4 * ((input.length + 2) / 3) + 1 < 2 ^ 64) :
    encode64 prim input =
      (if (prim.encode (encode64Capacity input.length) input).ret ≠ 0 then []
        else writeInto (prim.encode (encode64Capacity input.length) input).stored
          (List.replicate (encode64Capacity input.length) 0)) ∧
    encode64Capacity input.length = 4 * ((input.length + 2) / 3) + 1 ∧
    4 * ((input.length + 2) / 3) + 1 = 4 * ⌈(input.length : ℚ) / 3⌉₊ + 1 ∧
    ((prim.encode (encode64Capacity input.length) input).ret = 0 →
      (encode64 prim input).length = 4 * ⌈(input.length : ℚ) / 3⌉₊ + 1) := by
  refine ⟨encode64_eq prim input, encode64Capacity_eq _ hno, by rw [ceil_div_three], ?_⟩
  intro hret
  rw [encode64_eq, if_neg (by simp [hret]), writeInto_length, List.length_replicate,
    encode64Capacity_eq _ hno, ceil_div_three]

/-- C15, witness: "hello world", 11 bytes, capacity and result length 17. -/
theorem encode64_buffer_sizing_witness :
    (4 * ((helloWorld.length + 2) / 3) + 1 < 2 ^ 64 ∧
      (standardBase64.encode (encode64Capacity helloWorld.length) helloWorld).ret = 0) ∧
    (encode64 standardBase64 helloWorld).length = 4 * ⌈(helloWorld.length : ℚ) / 3⌉₊ + 1 ∧
    encode64Capacity helloWorld.length = 17 :=
  ⟨⟨by decide, by decide⟩,
   (encode64_buffer_sizing standardBase64 helloWorld (by decide)).2.2.2 (by decide),
   by decide⟩

/-- A base64 text yields at most three bytes for every four characters. -/
theorem base64Bytes_length :
    ∀ (n : Nat) (input bytes : List Nat), input.length ≤ n →
      base64Bytes input = some bytes → 4 * bytes.length ≤ 3 * input.length := by
  intro n
  induction n with
  | zero =>
    intro input bytes hlen h
    have : input = [] := List.length_eq_zero.mp (by omega)
    subst this
    simp [base64Bytes] at h
    subst h
    simp
  | succ n ih =>
    intro input bytes hlen h
    match input, hlen, h with
    | [], _, h => simp [base64Bytes] at h; subst h; simp
    | [_], _, h => simp [base64Bytes] at h
    | [_, _], _, h => simp [base64Bytes] at h
    | [_, _, _], _, h => simp [base64Bytes] at h
    | a :: b :: c :: d :: rest, hlen, h =>
      unfold base64Bytes at h
      split at h
      · split at h
        · simp only [Option.some.injEq] at h
          subst h
          simp only [List.length_cons, List.length_nil]
          omega
        · split at h
          · split at h
            · simp only [Option.some.injEq] at h
              subst h
              simp only [List.length_cons, List.length_nil]
              omega
            · split at h
              · rename_i t ht
                simp only [Option.some.injEq] at h
                subst h
                have := ih rest _ (by simp only [List.length_cons] at hlen; omega) (by assumption)
                simp only [List.length_cons, List.length_append, List.length_nil]
                omega
              · cases h
          · cases h
      · cases h

/-- With the standard primitive and the buffer `decode64` allocates, the decode
call never reports an undersized buffer: it fails exactly on malformed text. -/
theorem decode64_standard_failure (input : List Nat) (hno : 3 * input.length < 2 ^ 64) :
    decode64 standardBase64 input = [] ↔ base64Bytes input = none := by
  have hcap := decode64Capacity_eq input.length hno
  rw [decode64_eq]
  cases hb : base64Bytes input with
  | none => simp [standardBase64, hb]
  | some bytes =>
    have hlen := base64Bytes_length input.length input bytes (le_refl _) hb
    have hfit : ¬ (decode64Capacity input.length < bytes.length) := by rw [hcap]; omega
    have hne : writeInto bytes (List.replicate (decode64Capacity input.length) 0) ≠ [] := by
      intro h
      have hl := writeInto_length bytes (List.replicate (decode64Capacity input.length) 0)
      rw [h, List.length_replicate, hcap] at hl
      simp only [List.length_nil] at hl
      omega
    simp [standardBase64, hb, hfit, hne]

/-- C17, counterexample.  For an input of 6148914691236517206 bytes the 64-bit
product `3 * n` wraps to 2, so the capacity `decode64` allocates and hands to
the primitive is 1, while 4611686018427387905 bytes can be required for that
many significant characters without padding. -/
theorem decode64_capacity_wraps :
    decode64Capacity 6148914691236517206 = 1 ∧
    (decode64 idleBase64 (List.replicate 6148914691236517206 0)).length = 1 ∧
    ⌈(6 * ((6148914691236517206 : ℕ) : ℚ)) / 8⌉₊ - 0 = 4611686018427387905 ∧
    ¬ (⌈(6 * ((6148914691236517206 : ℕ) : ℚ)) / 8⌉₊ - 0
      ≤ decode64Capacity 6148914691236517206) := by
  have hcap : decode64Capacity 6148914691236517206 = 1 := by decide
  have hceil := ceil_six_eighths 6148914691236517206
  refine ⟨hcap, ?_, ?_, ?_⟩
  · rw [decode64_eq, List.length_replicate, hcap]
    decide
  · rw [hceil]
  · rw [hceil, hcap]
    decide

/-- C17, amended.  For every input of length `n` with no 64-bit overflow in
`3 * n`: the capacity `decode64` allocates and hands to the primitive is
`floor(3n / 4) + 1`, and it is at least `ceil(6c / 8) - j` for every count
`c ≤ n` of significant characters and every padding count `j`; with the
standard primitive `decode64` then fails exactly on malformed text, never for
want of room. -/
theorem decode64_buffer_suffices (prim : Base64Primitive) (input : List Nat) (c j : Nat)
    (hno : 3 * input.length < 2 ^ 64) (hc : c ≤ input.length) :
    decode64 prim input =
      (if (prim.decode (decode64Capacity input.length) input).ret ≠ 0 then []
        else writeInto (prim.decode (decode64Capacity input.length) input).stored
          (List.replicate (decode64Capacity input.length) 0)) ∧
    decode64Capacity input.length = 3 * input.length / 4 + 1 ∧
    ⌈(6 * (c : ℚ)) / 8⌉₊ - j ≤ decode64Capacity input.length ∧
    (decode64 standardBase64 input = [] ↔ base64Bytes input = none) := by
  refine ⟨decode64_eq prim input, decode64Capacity_eq _ hno, ?_,
    decode64_standard_failure input hno⟩
  rw [decode64Capacity_eq _ hno, ceil_six_eighths]
  omega

/-- C17, witness: the 16 characters "aGVsbG8gd29ybGQ=", all of them significant
and one of them padding: 11 bytes are needed, 13 are allocated. -/
theorem decode64_buffer_suffices_witness :
    (3 * helloWorldText.length < 2 ^ 64 ∧ 16 ≤ helloWorldText.length) ∧
    ⌈(6 * ((16 : ℕ) : ℚ)) / 8⌉₊ - 1 ≤ decode64Capacity helloWorldText.length ∧
    decode64Capacity helloWorldText.length = 13 :=
  ⟨⟨by decide, by decide⟩,
   (decode64_buffer_suffices standardBase64 helloWorldText 16 1 (by decide) (by decide)).2.2.1,
   by decide⟩

end hex.crypt
